import Mathlib

/-!
Verification development for the incident-import reconciliation engine
(`import_records.py` and `scripts/import_publish_incidents.py`).

The embedding models Python values flowing through the deduplication code
as an inductive `Value` type, naive datetimes as seconds + microseconds,
table/service rows as lists of values aligned with a field-name list, and
the two store backends as pure list states.  Fallible Python operations
(`int(...)`, `strptime`, uncaught exceptions) are `Except` computations.
-/

namespace IncidentImport

/-- A naive Python `datetime`, represented by its offset in whole seconds
from an arbitrary epoch together with a microsecond component.  Python
compares datetimes lexicographically on (second, microsecond). -/
structure Timestamp where
  sec : Int
  usec : Nat
deriving DecidableEq, Repr

/-- Python `<` on datetimes: lexicographic on (seconds, microseconds). -/
def tsLt (a b : Timestamp) : Bool :=
  decide (a.sec < b.sec) || (decide (a.sec = b.sec) && decide (a.usec < b.usec))

/-- `d.replace(microsecond=0)`: truncate a datetime to whole seconds. -/
def tsTrunc (a : Timestamp) : Timestamp := ⟨a.sec, 0⟩

/-- A Python value as it appears in a table row or service feature:
`None`, `int`, `float` (decimal representation `num / 10^den`),
`str`, or a naive `datetime`. -/
inductive Value where
  | vNull
  | vInt (n : Int)
  | vFloat (num : Int) (den : Nat)
  | vStr (s : String)
  | vDate (t : Timestamp)
deriving DecidableEq, Repr

/-- Is the first character list a prefix of the second? -/
def startsWithCh : List Char → List Char → Bool
  | [], _ => true
  | _ :: _, [] => false
  | p :: ps, c :: cs => p == c && startsWithCh ps cs

/-- Substring containment over character lists. -/
def containsSub (needle : List Char) : List Char → Bool
  | [] => needle.isEmpty
  | c :: cs => startsWithCh needle (c :: cs) || containsSub needle cs

/-- Python substring test `needle in hay` for strings. -/
def strContains (hay needle : String) : Bool :=
  containsSub needle.toList hay.toList

/-- `s.split(sep)` for a single-character separator, over character
lists. -/
def charSplitOn (sep : Char) : List Char → List (List Char)
  | [] => [[]]
  | c :: cs =>
    if c == sep then [] :: charSplitOn sep cs
    else
      match charSplitOn sep cs with
      | [] => [[c]]
      | g :: gs => (c :: g) :: gs

/-- Strip leading and trailing whitespace from a character list. -/
def trimCh (l : List Char) : List Char :=
  ((l.dropWhile Char.isWhitespace).reverse.dropWhile Char.isWhitespace).reverse

/-- Numeric value of a list of decimal digits. -/
def digitsVal (l : List Char) : Nat :=
  l.foldl (fun acc c => acc * 10 + (c.toNat - 48)) 0

/-- First `n` characters of a string (`s[:n]`). -/
def takeCh (s : String) (n : Nat) : String := String.mk (s.toList.take n)

/-- Uppercase an ASCII letter. -/
def chUpper (c : Char) : Char :=
  if 97 ≤ c.toNat && c.toNat ≤ 122 then Char.ofNat (c.toNat - 32) else c

/-- Python `s.upper()` (ASCII range). -/
def pyUpper (s : String) : String := String.mk (s.toList.map chUpper)

/-- Left-pad a numeral string with zeros to the given width. -/
def padZeros (w : Nat) (s : String) : String :=
  if s.length < w then String.mk (List.replicate (w - s.length) '0') ++ s else s

/-- Civil calendar date from a count of days since 1970-01-01
(standard era-based algorithm); returns (year, month, day). -/
def civilFromDays (z0 : Int) : Int × Nat × Nat :=
  let z := z0 + 719468
  let era : Int := Int.fdiv z 146097
  let doe : Nat := (Int.fmod z 146097).toNat
  let yoe : Nat := (doe - doe / 1460 + doe / 36524 - doe / 146096) / 365
  let doy : Nat := doe - (365 * yoe + yoe / 4 - yoe / 100)
  let mp : Nat := (5 * doy + 2) / 153
  let d : Nat := doy - (153 * mp + 2) / 5 + 1
  let m : Nat := if mp < 10 then mp + 3 else mp - 9
  let y : Int := (yoe : Int) + era * 400 + (if m ≤ 2 then 1 else 0)
  (y, m, d)

/-- Python `str(datetime)`: `YYYY-MM-DD HH:MM:SS` with a `.ffffff`
suffix when the microsecond component is nonzero. -/
def pyStrDate (t : Timestamp) : String :=
  let days := Int.fdiv t.sec 86400
  let sod := (Int.fmod t.sec 86400).toNat
  let ymd := civilFromDays days
  let y := ymd.1
  let m := ymd.2.1
  let d := ymd.2.2
  let hh := sod / 3600
  let mm := sod / 60 % 60
  let ss := sod % 60
  padZeros 4 (toString y) ++ "-" ++ padZeros 2 (toString m) ++ "-" ++ padZeros 2 (toString d) ++
    " " ++ padZeros 2 (toString hh) ++ ":" ++ padZeros 2 (toString mm) ++ ":" ++ padZeros 2 (toString ss) ++
    (if t.usec = 0 then "" else "." ++ padZeros 6 (toString t.usec))

/-- Python `str(float)` for a decimal float `num / 10^den`: integer part,
a dot, then the fractional digits with trailing zeros removed (at least
one digit, so integral floats render as `...0`). -/
def pyStrFloat (num : Int) (den : Nat) : String :=
  let sign := if num < 0 then "-" else ""
  let n := num.natAbs
  let ip := n / 10 ^ den
  let fracDigits := padZeros den (toString (n % 10 ^ den))
  let fracTrimmed := (fracDigits.toList.reverse.dropWhile (fun c => c == '0')).reverse
  let frac := if fracTrimmed.isEmpty then "0" else String.mk fracTrimmed
  sign ++ toString ip ++ "." ++ frac

/-- Python `str(...)` on the modelled values. -/
def pyStr : Value → String
  | .vNull => "None"
  | .vInt n => toString n
  | .vFloat num den => pyStrFloat num den
  | .vStr s => s
  | .vDate t => pyStrDate t

/-- Python truthiness of a value (used by `if csvdup[i]:`). -/
def truthy : Value → Bool
  | .vNull => false
  | .vInt n => n != 0
  | .vFloat num _ => num != 0
  | .vStr s => !s.toList.isEmpty
  | .vDate _ => true

/-- `v.is_integer()`: defined only for floats (`AttributeError`
otherwise, modelled as `none`). -/
def pyIsInteger : Value → Option Bool
  | .vFloat num den => some (decide (Int.emod num (10 ^ den) = 0))
  | _ => none

/-- The idiom `try: if v.is_integer(): v = int(v) except AttributeError: pass`
used throughout the source to fold integral floats to ints. -/
def intIfIntegralFloat (v : Value) : Value :=
  match v with
  | .vFloat num den => if Int.emod num (10 ^ den) = 0 then .vInt (Int.tdiv num (10 ^ den)) else v
  | v => v

/-- The Python exceptions distinguished by the source's handlers. -/
inductive PyErr where
  | typeError
  | valueError
deriving DecidableEq, Repr

/-- Split an optional leading sign off a character list; returns
(negative?, remaining characters). -/
def splitSign (l : List Char) : Bool × List Char :=
  match l with
  | c :: rest =>
    if c == '-' then (true, rest)
    else if c == '+' then (false, rest)
    else (false, l)
  | [] => (false, l)

/-- Strict decimal-integer parse: optional sign then digits, with
surrounding whitespace tolerated, as accepted by Python `int(str)`. -/
def parseIntStrict (s : String) : Option Int :=
  let t := trimCh s.toList
  let sc := splitSign t
  if sc.2.isEmpty || !(sc.2.all Char.isDigit) then none
  else some (if sc.1 then -(digitsVal sc.2 : Int) else (digitsVal sc.2 : Int))

/-- Strict decimal parse for Python `float(str)`: optional sign,
digits with at most one dot (exponent forms are out of scope); returns
the value as `(num, den)` meaning `num / 10^den`. -/
def parseFloatStrict (s : String) : Option (Int × Nat) :=
  let t := trimCh s.toList
  let sc := splitSign t
  match charSplitOn '.' sc.2 with
  | [ip] =>
    if ip.isEmpty || !(ip.all Char.isDigit) then none
    else some ((if sc.1 then -(digitsVal ip : Int) else (digitsVal ip : Int)), 0)
  | [ip, fp] =>
    if (ip.isEmpty && fp.isEmpty) || !(ip.all Char.isDigit) || !(fp.all Char.isDigit)
    then none
    else
      let mag : Nat := digitsVal (ip ++ fp)
      some ((if sc.1 then -(mag : Int) else (mag : Int)), fp.length)
  | _ => none

/-- Python `int(v)`: ints pass through, floats truncate toward zero,
strings parse strictly (`ValueError` on failure), `None` and datetimes
raise `TypeError`. -/
def pyIntOf : Value → Except PyErr Int
  | .vNull => .error .typeError
  | .vInt n => .ok n
  | .vFloat num den => .ok (Int.tdiv num (10 ^ den))
  | .vStr s =>
    match parseIntStrict s with
    | some n => .ok n
    | none => .error .valueError
  | .vDate _ => .error .typeError

/-- Python `n == v` for an int `n` against an arbitrary value: numeric
equality against ints and floats, `False` against everything else. -/
def pyEqIntVal (n : Int) : Value → Bool
  | .vInt m => decide (n = m)
  | .vFloat num den => decide (num = n * 10 ^ den)
  | _ => false

/-- Python `==` between two of the modelled values: numeric equality
across int/float, structural equality within a kind, `False` across
unrelated kinds, `None == None` is `True`. -/
def pyValEq : Value → Value → Bool
  | .vNull, .vNull => true
  | .vInt n, .vInt m => decide (n = m)
  | .vInt n, .vFloat num den => decide (num = n * 10 ^ den)
  | .vFloat num den, .vInt n => decide (num = n * 10 ^ den)
  | .vFloat n1 d1, .vFloat n2 d2 => decide (n1 * 10 ^ d2 = n2 * 10 ^ d1)
  | .vStr a, .vStr b => a == b
  | .vDate a, .vDate b => a == b
  | _, _ => false

/-- `s.replace(',', '')`. -/
def stripCommas (s : String) : String := String.mk (s.toList.filter (fun c => c != ','))

/-- Index of a field name in the matched-fields list (`fields.index(f)`);
returns the list length when absent (callers guard membership). -/
def fieldIdx (fields : List String) (f : String) : Nat :=
  match fields with
  | [] => 0
  | g :: gs => if g = f then 0 else fieldIdx gs f + 1

/-- Row value at a field position (`row[fields.index(f)]` /
`servicerow.get_value(f)`), `None` when out of range. -/
def getField (fields : List String) (row : List Value) (f : String) : Value :=
  row.getD (fieldIdx fields f) .vNull

/-- Errors that escape the reconciliation functions: `e15` ("non-date
value or wrong format", raised after a caught `TypeError`) and uncaught
exceptions (`ValueError` from `strptime`/`int`/`float`, `TypeError`
from `int(None)`, invalid query clauses). -/
inductive RunErr where
  | fieldFormatError
  | uncaught
deriving DecidableEq, Repr

/-- `cast_id` from `import_records.py` (lines 213-224): string-like field
types stringify; otherwise `int(...)` with fallback to `str(...)` on
`ValueError`.  A `TypeError` (e.g. `int(None)`) is not caught there and
propagates. -/
def cast_id (idVal : Value) (field_type : String) : Except RunErr Value :=
  if strContains field_type "String" then .ok (.vStr (pyStr idVal))
  else
    match pyIntOf idVal with
    | .ok n => .ok (.vInt n)
    | .error .valueError => .ok (.vStr (pyStr idVal))
    | .error .typeError => .error .uncaught

/-- `cast_id` from `scripts/import_publish_incidents.py` (lines 268-279):
identical except the string test is equality `field_type == "String"`
rather than substring containment. -/
def cast_id_scripts (idVal : Value) (field_type : String) : Except RunErr Value :=
  if field_type = "String" then .ok (.vStr (pyStr idVal))
  else
    match pyIntOf idVal with
    | .ok n => .ok (.vInt n)
    | .error .valueError => .ok (.vStr (pyStr idVal))
    | .error .typeError => .error .uncaught

/-- The `idrec.split(".")[0]` cleanup applied to the collected id strings
when the source table's id field type is Double/Single
(`_prep_source_table`, lines 273-274). -/
def splitIdDecimal (s : String) : String :=
  String.mk ((charSplitOn '.' s.toList).headD s.toList)

/-- The numeric field types for which the source renders an id value
into a where clause without quotes. -/
def numericFieldTypes : List String := ["Double", "Single", "Integer", "SmallInteger"]

/-- Rendering of `"{} = {}"` / `"{} = '{}'"` where clauses
(`_prep_source_table` lines 280-283 and `remove_dups_fs` lines 329-332):
numeric field types render the value bare, any other type wraps it in
single quotes with the value inserted verbatim (no escaping). -/
def whereEqClause (id_field : String) (numericType : Bool) (lit : String) : String :=
  if numericType then id_field ++ " = " ++ lit
  else id_field ++ " = \x27" ++ lit ++ "\x27"

/-- Double each embedded single quote, the standard SQL escape. -/
def escapeQuotes (s : String) : String :=
  String.mk (s.toList.foldr (fun c acc => if c == '\x27' then c :: c :: acc else c :: acc) [])

/-- Modelled from the spec: `quoteForPredicate(value, fieldKind)` of
section 4.2 — numeric kinds render unquoted, string kinds render
single-quoted *with embedded quotes escaped*.  This definition follows
the spec's words and is compared against `whereEqClause`, the rendering
the code actually performs. -/
def quoteForPredicateSpec (id_field : String) (numericType : Bool) (lit : String) : String :=
  if numericType then id_field ++ " = " ++ lit
  else id_field ++ " = \x27" ++ escapeQuotes lit ++ "\x27"

/-- Does a value from a numeric column satisfy `field = <lit>` for a bare
numeric literal `lit`?  Models the store's evaluation of the unquoted
where clauses: the literal is read as a decimal number and compared
numerically; non-numeric values never match. -/
def litMatchesNumeric (lit : String) (v : Value) : Bool :=
  match parseFloatStrict lit with
  | none => false
  | some (num, den) =>
    match v with
    | .vInt n => decide (num = n * 10 ^ den)
    | .vFloat num2 den2 => decide (num * 10 ^ den2 = num2 * 10 ^ den)
    | _ => false

/-- Does a value from a string column satisfy `field = '<lit>'`?  String
values compare exactly; other kinds never match a string literal. -/
def litMatchesString (lit : String) (v : Value) : Bool :=
  match v with
  | .vStr s => s == lit
  | _ => false

/-- Evaluation of the single-id where clause built from a rendered id
string, switching on whether the table's id field type is numeric
(matches the quoting switch at `import_records.py` lines 280-283,
329-332). -/
def whereEqMatches (numericType : Bool) (lit : String) (v : Value) : Bool :=
  if numericType then litMatchesNumeric lit v else litMatchesString lit v

/-- `dt.strptime(v, timestamp)` where `parse` stands for parsing under
the configured format: only strings parse; unparseable strings raise
`ValueError`; non-strings raise `TypeError`. -/
def strptimeV (parse : String → Option Timestamp) (v : Value) : Except PyErr Timestamp :=
  match v with
  | .vStr s =>
    match parse s with
    | some t => .ok t
    | none => .error .valueError
  | _ => .error .typeError

/-- The `try strptime / except TypeError: use the datetime value, else
raise e15 / uncaught ValueError` pattern shared by both date-comparison
helpers. -/
def resolveDateValue (parse : String → Option Timestamp) (v : Value) :
    Except RunErr Timestamp :=
  match strptimeV parse v with
  | .ok t => .ok t
  | .error .typeError =>
    match v with
    | .vDate t => .ok t
    | _ => .error .fieldFormatError
  | .error .valueError => .error .uncaught

/-- `compare_dates_fc` from `import_records.py` (lines 449-484): resolve
both dates (strptime, falling back to an existing datetime value, else
error e15), truncate both to the second, return `True` when the row date
is strictly more recent than the dictionary date. -/
def compare_dates_fc (parse : String → Option Timestamp) (fields : List String)
    (dt_field : String) (row : List Value) (id_vals : List Value) : Except RunErr Bool :=
  let dtIdx := fieldIdx fields dt_field
  match resolveDateValue parse (row.getD dtIdx .vNull),
        resolveDateValue parse (id_vals.getD dtIdx .vNull) with
  | .ok row_date, .ok dict_date => .ok (tsLt (tsTrunc dict_date) (tsTrunc row_date))
  | .error e, _ => .error e
  | _, .error e => .error e

/-- `compare_dates` from `scripts/import_publish_incidents.py` (lines
188-222): same date resolution, but the results of
`row_date.replace(microsecond=0)` / `dict_date.replace(microsecond=0)`
are discarded (lines 216-217), so the comparison runs at full
microsecond precision. -/
def compare_dates_scripts (parse : String → Option Timestamp) (fields : List String)
    (dt_field : String) (row : List Value) (id_vals : List Value) : Except RunErr Bool :=
  let dtIdx := fieldIdx fields dt_field
  match resolveDateValue parse (row.getD dtIdx .vNull),
        resolveDateValue parse (id_vals.getD dtIdx .vNull) with
  | .ok row_date, .ok dict_date => .ok (tsLt dict_date row_date)
  | .error e, _ => .error e
  | _, .error e => .error e

/-- `compare_locations_fs` from `import_records.py` (lines 178-209).
For each location field present in the matched fields: fold an integral
float in the table row to an int (this mutates the row, which the
caller keeps using), compare `str(...).upper().replace(',','')` of the
table value against the same of the service value (the service side is
replaced by `str(int(...))` when it is an integral float), and stop at
the first difference.  Returns the difference flag together with the
(possibly mutated) table row. -/
def compare_locations_fs (fields : List String) (servicerow : List Value)
    (tablerow : List Value) : List String → Bool × List Value
  | [] => (false, tablerow)
  | loc_field :: rest =>
    if fields.contains loc_field then
      let locIdx := fieldIdx fields loc_field
      let tablerow := tablerow.set locIdx (intIfIntegralFloat (tablerow.getD locIdx .vNull))
      let table_str := stripCommas (pyUpper (pyStr (tablerow.getD locIdx .vNull)))
      let servVal := getField fields servicerow loc_field
      let serv_str := stripCommas (pyUpper (pyStr servVal))
      let serv_str :=
        match pyIsInteger servVal with
        | some true =>
          match pyIntOf servVal with
          | .ok n => pyStr (.vInt n)
          | .error _ => serv_str
        | _ => serv_str
      if table_str != serv_str then (true, tablerow)
      else compare_locations_fs fields servicerow tablerow rest
    else compare_locations_fs fields servicerow tablerow rest

/-- `compare_locations_fc` from `import_records.py` (lines 489-518).
Like the service variant but both sides live in rows: integral floats
are folded to ints in the dictionary row and in the feature-class row
(both mutations persist for the caller), and the comparison is
`str(...).upper()` on both sides with no comma stripping.  Returns the
difference flag with the (possibly mutated) dictionary row and
feature-class row. -/
def compare_locations_fc (fields : List String) (fcrow : List Value)
    (id_vals : List Value) : List String → Bool × List Value × List Value
  | [] => (false, id_vals, fcrow)
  | loc_field :: rest =>
    if fields.contains loc_field then
      let locIdx := fieldIdx fields loc_field
      let id_vals := id_vals.set locIdx (intIfIntegralFloat (id_vals.getD locIdx .vNull))
      let fcrow := fcrow.set locIdx (intIfIntegralFloat (fcrow.getD locIdx .vNull))
      if pyUpper (pyStr (id_vals.getD locIdx .vNull)) != pyUpper (pyStr (fcrow.getD locIdx .vNull))
      then (true, id_vals, fcrow)
      else compare_locations_fc fields fcrow id_vals rest
    else compare_locations_fc fields fcrow id_vals rest

/-- One entry of the `addResults` list in a store response:
a plain success entry carries no `error` key (`KeyError` on access),
an entry may carry an explicit null error, or an error description. -/
inductive EditItem where
  | success
  | errorNone
  | errorDesc (d : String)
deriving DecidableEq, Repr

/-- A store response to one chunked edit request: `none` models a
response carrying no `addResults` list at all (both accesses raise),
`some items` the `addResults` list. -/
abbrev EditResp := Option (List EditItem)

/-- Outcome of `editFeatures`: the returned flag, the number of chunk
requests issued, and the final `featuresProcessed` counter. -/
structure EditOut where
  retval : Bool
  requests : Nat
  processed : Nat
deriving DecidableEq, Repr

/-- The two writer modes of `editFeatures` (`adds=` versus `updates=`).
The response handling is identical in both. -/
inductive EditMode where
  | add
  | update
deriving DecidableEq, Repr

/-- The `while featuresProcessed < numFeat and error == False` loop of
`editFeatures` (`import_records.py` lines 738-760), indexed by the
number of passes left: every pass adds `chunk` to `featuresProcessed`,
so with a nonzero chunk the loop makes exactly `⌈numFeat/chunk⌉` passes
unless an error stops it, and the recursion counts those passes.
`resp k` is the store's response to the k-th request.  Per pass: send
the chunk; if `result['addResults'][-1]['error']` is a real error,
report and stop; if that access raises (no list, empty list, or no
`error` key) then `len(result['addResults'])` either succeeds (set
`retval = True`, continue) or raises again (hard failure, stop); an
explicit null error falls through leaving `retval` unchanged. -/
def editLoop (resp : Nat → EditResp) (chunk : Nat) :
    Nat → Nat → Nat → Bool → EditOut
  | 0, fp, reqs, retval => ⟨retval, reqs, fp⟩
  | q + 1, fp, reqs, retval =>
    match resp reqs with
    | none => ⟨false, reqs + 1, fp + chunk⟩
    | some items =>
      match items.getLast? with
      | none => editLoop resp chunk q (fp + chunk) (reqs + 1) true
      | some .success => editLoop resp chunk q (fp + chunk) (reqs + 1) true
      | some .errorNone => editLoop resp chunk q (fp + chunk) (reqs + 1) retval
      | some (.errorDesc _) => ⟨false, reqs + 1, fp + chunk⟩

/-- `editFeatures` (`import_records.py` lines 719-767) on `numFeat`
records: zero records return success immediately; otherwise the chunk
size is 100 (or everything at once when fewer), and the loop runs for
its `⌈numFeat/chunk⌉` passes starting from zero.  `resp` maps the mode
and request index to the store's response; the mode only selects which
edit operation the store performs. -/
def editFeatures (mode : EditMode) (numFeat : Nat) (resp : EditMode → Nat → EditResp) : EditOut :=
  if numFeat = 0 then ⟨true, 0, 0⟩
  else
    let chunk := if numFeat > 100 then 100 else numFeat
    editLoop (resp mode) chunk ((numFeat + chunk - 1) / chunk) 0 0 false

/-- Does the writer's check accept this response without flagging an
error (i.e. the loop continues past it)? -/
def chunkGood (r : EditResp) : Bool :=
  match r with
  | none => false
  | some items =>
    match items.getLast? with
    | some (.errorDesc _) => false
    | _ => true

/-- Configuration of one `remove_dups_fs` run: the matched field names,
the designated id/date fields, the configured location fields, the
`strptime` parser for the configured timestamp format, the service's
field-type map, and the type of the id field in the source table. -/
structure FsCtx where
  fields : List String
  id_field : String
  dt_field : String
  loc_fields : List String
  parse : String → Option Timestamp
  svcTypes : String → String
  tableidFieldType : String

/-- Side state threaded through the per-id resolution loop of
`remove_dups_fs`: the service's rows, the queued update features, and
the update/delete counters.  `silent` is instrumentation only: it
counts batch rows the code drops without touching either counter (the
"no attribute differs" path). -/
structure SideSt where
  store : List (List Value)
  updates : List (List Value)
  upd : Nat
  del : Nat
  silent : Nat
deriving DecidableEq, Repr

/-- Date resolution in the per-id loop of `remove_dups_fs` (lines
336-352): the service date comes from the first ten characters of its
epoch-millisecond value when the service field type is a Date, else
from `strptime`; the table date is used directly when already a
datetime, else parsed; both are truncated to the second (lines
349-350).  A `TypeError` anywhere raises e15; a `ValueError` escapes. -/
def fsResolveDates (ctx : FsCtx) (srow crow : List Value) :
    Except RunErr (Timestamp × Timestamp) :=
  let svcDt := getField ctx.fields srow ctx.dt_field
  let date2 : Except RunErr Timestamp :=
    if strContains (ctx.svcTypes ctx.dt_field) "Date" then
      match parseIntStrict (takeCh (pyStr svcDt) 10) with
      | some n => .ok ⟨n, 0⟩
      | none => .error .uncaught
    else
      match strptimeV ctx.parse svcDt with
      | .ok t => .ok t
      | .error .typeError => .error .fieldFormatError
      | .error .valueError => .error .uncaught
  let cDt := crow.getD (fieldIdx ctx.fields ctx.dt_field) .vNull
  let date1 : Except RunErr Timestamp :=
    match cDt with
    | .vDate t => .ok t
    | _ =>
      match strptimeV ctx.parse cDt with
      | .ok t => .ok t
      | .error .typeError => .error .fieldFormatError
      | .error .valueError => .error .uncaught
  match date2, date1 with
  | .ok t2, .ok t1 => .ok (tsTrunc t1, tsTrunc t2)
  | .error e, _ => .error e
  | _, .error e => .error e

/-- `int(t.timestamp() * 1000)`: epoch milliseconds, truncated. -/
def epochMs (t : Timestamp) : Int := Int.tdiv (t.sec * 1000000 + (t.usec : Int)) 1000

/-- `float(str(v).replace(',', ''))`, the coercion the Double branch
falls back to; an unparseable rendering raises an uncaught
`ValueError`. -/
def floatOfStrComma (v : Value) : Except RunErr Value :=
  match parseFloatStrict (stripCommas (pyStr v)) with
  | some (num, den) => .ok (.vFloat num den)
  | none => .error .uncaught

/-- One `ValueToSet` entry of the `field_info` translation
(`remove_dups_fs` lines 373-410): Double service fields fold to int when
integral, else re-parse as float; Date service fields convert truthy
values to epoch milliseconds (via `strptime` for strings or
`.timestamp()` for datetimes, anything else escapes) and pass falsy
values through; all other fields fold to int when `int(v) == v`, else
pass through. -/
def fsFieldValueToSet (parse : String → Option Timestamp) (v : Value) (ftype : String) :
    Except RunErr Value :=
  if strContains ftype "Double" then
    match pyIntOf v with
    | .ok n => if pyEqIntVal n v then .ok (.vInt n) else floatOfStrComma v
    | .error _ => floatOfStrComma v
  else if strContains ftype "Date" then
    if truthy v then
      match v with
      | .vStr s =>
        match parse s with
        | some t => .ok (.vInt (epochMs t))
        | none => .error .uncaught
      | .vDate t => .ok (.vInt (epochMs t))
      | _ => .error .uncaught
    else .ok v
  else
    match pyIntOf v with
    | .ok n => if pyEqIntVal n v then .ok (.vInt n) else .ok v
    | .error _ => .ok v

/-- The full `field_info` list for a table row, one translated value per
matched field. -/
def fsFieldInfo (ctx : FsCtx) (crow : List Value) : Except RunErr (List Value) :=
  (List.range ctx.fields.length).mapM fun i =>
    fsFieldValueToSet ctx.parse (crow.getD i .vNull) (ctx.svcTypes (ctx.fields.getD i ""))

/-- The service-side string used in the attribute diff (lines 413-420):
`str(value)`, replaced by `str(int(value))` when the value is an
integral float. -/
def fsServStr (v : Value) : String :=
  match pyIsInteger v with
  | some true =>
    match pyIntOf v with
    | .ok n => pyStr (.vInt n)
    | .error _ => pyStr v
  | _ => pyStr v

/-- The `updateNeeded` attribute diff (lines 412-422): some matched
field's service string differs from the string of its `ValueToSet`. -/
def fsUpdateNeeded (ctx : FsCtx) (srow : List Value) (finfo : List Value) : Bool :=
  (List.range ctx.fields.length).any fun i =>
    fsServStr (getField ctx.fields srow (ctx.fields.getD i "")) != pyStr (finfo.getD i .vNull)

/-- Does a table/service row match the single-id where clause built for
`idVal` (lines 329-332, 365-368): numeric table id types compare
numerically against the bare literal, other types compare the string. -/
def rowMatchesId (ctx : FsCtx) (idVal : Value) (r : List Value) : Bool :=
  whereEqMatches (numericFieldTypes.contains ctx.tableidFieldType) (pyStr idVal)
    (r.getD (fieldIdx ctx.fields ctx.id_field) .vNull)

/-- The body of the per-id loop of `remove_dups_fs` (lines 334-440) for
one service row and one matching table row.  Returns the updated side
state and whether the table row survives: an older table row is deleted
and counted in `del`; a changed location deletes the service rows for
the id and keeps the table row; otherwise the attributes are translated
and diffed — a difference queues one update feature and bumps `upd`,
no difference queues nothing — and the table row is dropped either way.
(The `except RuntimeError` fallback at lines 438-440 concerns arcgis
API failures that have no counterpart in this model.) -/
def fsRowBody (ctx : FsCtx) (srow : List Value) (idVal : Value) (ss : SideSt)
    (crow : List Value) : Except RunErr (SideSt × Bool) :=
  match fsResolveDates ctx srow crow with
  | .error e => .error e
  | .ok dd =>
    if tsLt dd.1 dd.2 then
      .ok ({ ss with del := ss.del + 1 }, false)
    else
      let lc := compare_locations_fs ctx.fields srow crow ctx.loc_fields
      if lc.1 then
        .ok ({ ss with store := ss.store.filter (fun r => !(rowMatchesId ctx idVal r)) }, true)
      else
        match fsFieldInfo ctx lc.2 with
        | .error e => .error e
        | .ok finfo =>
          if fsUpdateNeeded ctx srow finfo then
            .ok ({ ss with updates := ss.updates ++ [finfo], upd := ss.upd + 1 }, false)
          else
            .ok ({ ss with silent := ss.silent + 1 }, false)

/-- The `UpdateCursor` over the batch table for one service row: every
table row matching the id clause runs `fsRowBody` (and is kept or
deleted accordingly); other rows pass through untouched. -/
def fsCsvLoop (ctx : FsCtx) (srow : List Value) (idVal : Value) (pred : List Value → Bool) :
    List (List Value) → SideSt → Except RunErr (List (List Value) × SideSt)
  | [], ss => .ok ([], ss)
  | r :: rs, ss =>
    if pred r then
      match fsRowBody ctx srow idVal ss r with
      | .error e => .error e
      | .ok rb =>
        match fsCsvLoop ctx srow idVal pred rs rb.1 with
        | .error e => .error e
        | .ok rest => .ok ((if rb.2 then [r] else []) ++ rest.1, rest.2)
    else
      match fsCsvLoop ctx srow idVal pred rs ss with
      | .error e => .error e
      | .ok rest => .ok (r :: rest.1, rest.2)

/-- The outer loop of `remove_dups_fs` over the fetched service rows
(lines 325-440): cast the row's id with the service id type, build the
id where clause, and run the table cursor. -/
def fsServiceLoop (ctx : FsCtx) :
    List (List Value) → List (List Value) → SideSt →
    Except RunErr (List (List Value) × SideSt)
  | [], table, ss => .ok (table, ss)
  | srow :: rest, table, ss =>
    match cast_id (getField ctx.fields srow ctx.id_field) (ctx.svcTypes ctx.id_field) with
    | .error e => .error e
    | .ok idVal =>
      match fsCsvLoop ctx srow idVal (rowMatchesId ctx idVal) table ss with
      | .error e => .error e
      | .ok step => fsServiceLoop ctx rest step.1 step.2

/-- The null test of `_prep_source_table`'s where clause
`"{id} IS NULL OR {dt} IS NULL"`. -/
def fsNullPred (ctx : FsCtx) (r : List Value) : Bool :=
  decide (r.getD (fieldIdx ctx.fields ctx.id_field) .vNull = .vNull) ||
  decide (r.getD (fieldIdx ctx.fields ctx.dt_field) .vNull = .vNull)

/-- List of distinct strings, keeping first occurrences (models the
contents of `set(...)`; Python set order is unspecified and nothing
here depends on it). -/
def dedupStr : List String → List String
  | [] => []
  | s :: rest => s :: (dedupStr rest).filter (fun t => t != s)

/-- Occurrences of a string in a list (`all_ids.count(id)`). -/
def countOcc (s : String) (l : List String) : Nat := (l.filter (fun t => t = s)).length

/-- `ORDER BY {dt} DESC` comparison between two column values: datetimes
and strings and numbers order within their kind (numeric kinds
cross-compare); unrelated kinds are left unordered. -/
def dbOrderLt (a b : Value) : Bool :=
  match a, b with
  | .vDate x, .vDate y => tsLt x y
  | .vStr x, .vStr y => decide (x < y)
  | .vInt x, .vInt y => decide (x < y)
  | .vInt x, .vFloat n d => decide (x * 10 ^ d < n)
  | .vFloat n d, .vInt x => decide (n < x * 10 ^ d)
  | .vFloat n1 d1, .vFloat n2 d2 => decide (n1 * 10 ^ d2 < n2 * 10 ^ d1)
  | _, _ => false

/-- Maximal key among the matched rows, keeping the earliest row's key
on ties (the row the descending-ordered cursor yields first). -/
def latestKey (keyOf : List Value → Value) : List (List Value) → Option Value
  | [] => none
  | r :: rest =>
    some (rest.foldl (fun acc r' => if dbOrderLt acc (keyOf r') then keyOf r' else acc) (keyOf r))

/-- Delete every row matching `pred` except the first one whose key
equals `mx`, counting deletions — the effect of the duplicate-collapse
cursor (lines 284-290) that keeps only the first row of the
`ORDER BY {dt} DESC` ordering. -/
def dropAllButFirstMax (pred : List Value → Bool) (keyOf : List Value → Value) (mx : Value) :
    List (List Value) → Bool → List (List Value) × Nat
  | [], _ => ([], 0)
  | r :: rs, found =>
    if pred r then
      if !found && keyOf r == mx then
        let rest := dropAllButFirstMax pred keyOf mx rs true
        (r :: rest.1, rest.2)
      else
        let rest := dropAllButFirstMax pred keyOf mx rs found
        (rest.1, rest.2 + 1)
    else
      let rest := dropAllButFirstMax pred keyOf mx rs found
      (r :: rest.1, rest.2)

/-- Collapse the rows matching one duplicated id down to the most recent
report (`_prep_source_table` lines 278-290). -/
def collapseDupId (pred : List Value → Bool) (keyOf : List Value → Value)
    (table : List (List Value)) : List (List Value) × Nat :=
  match latestKey keyOf (table.filter pred) with
  | none => (table, 0)
  | some mx => dropAllButFirstMax pred keyOf mx table false

/-- Fold of the duplicate collapse over every duplicated id string. -/
def fsDupFold (numericT : Bool) (idIdx dtIdx : Nat) :
    List String → List (List Value) → Nat → List (List Value) × Nat
  | [], table, del => (table, del)
  | dupId :: rest, table, del =>
    let pred := fun r => whereEqMatches numericT dupId (r.getD idIdx .vNull)
    let keyOf := fun r => r.getD dtIdx .vNull
    let step := collapseDupId pred keyOf table
    fsDupFold numericT idIdx dtIdx rest step.1 (del + step.2)

/-- Result of a `remove_dups_fs` run: the surviving batch table, the
recorded null rows, the two returned counters, the `silent`
instrumentation count, and the service state (rows after deletions plus
the queued update features, which lines 441-442 hand to the batched
writer). -/
structure FsOut where
  table : List (List Value)
  nullRows : List (List Value)
  upd : Nat
  del : Nat
  silent : Nat
  store : List (List Value)
  updates : List (List Value)
deriving DecidableEq, Repr

/-- `_prep_source_table` (`import_records.py` lines 246-292): delete
rows with a null id or date (recorded and counted in `del_count`),
collect the id strings (`str(row[id_index])`, decimal-folded when the
table id type is Double/Single), and collapse intra-batch duplicates
keeping per id the most recent report.  Returns the prepared table, the
null rows, the collected id strings and the running delete count. -/
def prep_source_table (ctx : FsCtx) (batch : List (List Value)) :
    List (List Value) × List (List Value) × List String × Nat :=
  let idIdx := fieldIdx ctx.fields ctx.id_field
  let dtIdx := fieldIdx ctx.fields ctx.dt_field
  let nullRows := batch.filter (fsNullPred ctx)
  let table0 := batch.filter (fun r => !(fsNullPred ctx r))
  let all_ids0 := table0.map (fun r => pyStr (r.getD idIdx .vNull))
  let all_ids := if ctx.tableidFieldType = "Double" || ctx.tableidFieldType = "Single"
                 then all_ids0.map splitIdDecimal else all_ids0
  let dup_ids := (dedupStr all_ids).filter (fun s => countOcc s all_ids > 1)
  let numericT := numericFieldTypes.contains ctx.tableidFieldType
  let folded := fsDupFold numericT idIdx dtIdx dup_ids table0 nullRows.length
  (folded.1, nullRows, all_ids, folded.2)

/-- `remove_dups_fs` (`import_records.py` lines 294-447) over a pure
batch table and service row list.  After `prep_source_table`, the
collected id strings are intersected with the service's id strings and
the per-id resolution loop runs over the service rows matching the
common ids.  When the batch holds exactly one distinct id string the
code formats `tuple(common_ids[0])` — a character tuple — into the
where clause, an invalid query that makes the service call fail. -/
def remove_dups_fs_run (ctx : FsCtx) (batch store : List (List Value)) :
    Except RunErr FsOut :=
  let idIdx := fieldIdx ctx.fields ctx.id_field
  let p := prep_source_table ctx batch
  let serviceIds := store.map (fun r => pyStr (r.getD idIdx .vNull))
  let common_ids := (dedupStr p.2.2.1).filter (fun s => serviceIds.contains s)
  if common_ids.isEmpty then
    .ok ⟨p.1, p.2.1, 0, p.2.2.2, 0, store, []⟩
  else
    if (dedupStr p.2.2.1).length = 1 then
      .error .uncaught
    else
      let snapshot := store.filter (fun r => common_ids.contains (pyStr (r.getD idIdx .vNull)))
      match fsServiceLoop ctx snapshot p.1 ⟨store, [], 0, p.2.2.2, 0⟩ with
      | .error e => .error e
      | .ok step => .ok ⟨step.1, p.2.1, step.2.upd, step.2.del, step.2.silent,
          step.2.store, step.2.updates⟩

/-- The attribute dictionary of `remove_dups_fc`: insertion-ordered
association list from cast id to the retained row's values. -/
abbrev AttDict := List (Value × List Value)

/-- Python dict lookup (`att_dict[idVal]`), comparing keys with `==`. -/
def dictLookup (d : AttDict) (k : Value) : Option (List Value) :=
  match d with
  | [] => none
  | (k', v) :: rest => if pyValEq k' k then some v else dictLookup rest k

/-- Python dict assignment: replace in place, append when absent. -/
def dictSet (d : AttDict) (k : Value) (v : List Value) : AttDict :=
  match d with
  | [] => [(k, v)]
  | (k', v') :: rest => if pyValEq k' k then (k', v) :: rest else (k', v') :: dictSet rest k v

/-- Python `del d[k]`. -/
def dictRemove (d : AttDict) (k : Value) : AttDict :=
  match d with
  | [] => []
  | (k', v') :: rest => if pyValEq k' k then rest else (k', v') :: dictRemove rest k

/-- Configuration of one `remove_dups_fc` run; `field_type` is the type
of the id field in the target feature class (line 555), used for every
`cast_id` in this variant. -/
structure FcCtx where
  fields : List String
  id_field : String
  dt_field : String
  loc_fields : List String
  parse : String → Option Timestamp
  field_type : String
  tableidFieldType : String

/-- Dictionary-building pass of `remove_dups_fc` (lines 561-597): record
rows with a null id or date and skip them; fold an integral-float id to
int, cast it, and keep per id the row that `compare_dates_fc` finds most
recent (first row wins ties). -/
def fcBuild (ctx : FcCtx) : List (List Value) → List (List Value) → AttDict →
    Except RunErr (List (List Value) × AttDict)
  | [], nulls, att => .ok (nulls, att)
  | row :: rest, nulls, att =>
    let idV := row.getD (fieldIdx ctx.fields ctx.id_field) .vNull
    let dtV := row.getD (fieldIdx ctx.fields ctx.dt_field) .vNull
    if idV = .vNull || dtV = .vNull then fcBuild ctx rest (nulls ++ [row]) att
    else
      match cast_id (intIfIntegralFloat idV) ctx.field_type with
      | .error e => .error e
      | .ok idK =>
        match dictLookup att idK with
        | some id_vals =>
          match compare_dates_fc ctx.parse ctx.fields ctx.dt_field row id_vals with
          | .error e => .error e
          | .ok st =>
            if st then fcBuild ctx rest nulls (dictSet att idK row)
            else fcBuild ctx rest nulls att
        | none => fcBuild ctx rest nulls (dictSet att idK row)

/-- The id key of a feature-class row in the update loop (lines
621-623): `cast_id` on the raw row value with the store's id type. -/
def fcRowKey (ctx : FcCtx) (fcrow : List Value) : Except RunErr Value :=
  cast_id (fcrow.getD (fieldIdx ctx.fields ctx.id_field) .vNull) ctx.field_type

/-- `fcrow[i] = id_vals[fields[i]]` for every matched field: the row the
in-place update writes back. -/
def fcNewRow (ctx : FcCtx) (id_vals : List Value) : List Value :=
  (List.range ctx.fields.length).map fun i => id_vals.getD i .vNull

/-- `{id} IN {tuple(att_dict.keys())}` over the feature class: a row
matches when its id value equals some dictionary key. -/
def fcInPred (ctx : FcCtx) (att : AttDict) (r : List Value) : Bool :=
  att.any fun kv => pyValEq kv.1 (r.getD (fieldIdx ctx.fields ctx.id_field) .vNull)

/-- Body of the feature-class update cursor of `remove_dups_fc` (lines
618-672) for one store row: an id absent from the dictionary passes
(`KeyError → pass`); a more recent store row overwrites the dictionary
entry and is kept; a changed location deletes the store row (the
dictionary keeps the id, with the location comparison's integral-float
mutations); otherwise the store row is rewritten in place from the
dictionary values, the update counter is incremented — with no check
that anything differs — and the id is removed from the dictionary.
Returns the dictionary, the counter, and `some row` when the store row
survives (possibly rewritten). -/
def fcProcessStoreRow (ctx : FcCtx) (att : AttDict) (upd : Nat) (fcrow : List Value) :
    Except RunErr (AttDict × Nat × Option (List Value)) :=
  match fcRowKey ctx fcrow with
  | .error e => .error e
  | .ok idK =>
    match dictLookup att idK with
    | none => .ok (att, upd, some fcrow)
    | some id_vals =>
      match compare_dates_fc ctx.parse ctx.fields ctx.dt_field fcrow id_vals with
      | .error e => .error e
      | .ok st =>
        if st then
          .ok (dictSet att idK fcrow, upd, some fcrow)
        else
          let lc := compare_locations_fc ctx.fields fcrow id_vals ctx.loc_fields
          if lc.1 then
            .ok (dictSet att idK lc.2.1, upd, none)
          else
            .ok (dictRemove att idK, upd + 1, some (fcNewRow ctx lc.2.1))

/-- The feature-class update cursor: rows matching the in-clause run
`fcProcessStoreRow`; the rest pass through. -/
def fcStoreLoop (ctx : FcCtx) (pred : List Value → Bool) :
    List (List Value) → AttDict → Nat →
    Except RunErr (List (List Value) × AttDict × Nat)
  | [], att, upd => .ok ([], att, upd)
  | r :: rs, att, upd =>
    if pred r then
      match fcProcessStoreRow ctx att upd r with
      | .error e => .error e
      | .ok step =>
        match fcStoreLoop ctx pred rs step.1 step.2.1 with
        | .error e => .error e
        | .ok rest =>
          .ok ((match step.2.2 with | some r' => [r'] | none => []) ++ rest.1, rest.2)
    else
      match fcStoreLoop ctx pred rs att upd with
      | .error e => .error e
      | .ok rest => .ok (r :: rest.1, rest.2)

/-- The id key of a batch row in the cleanup pass (lines 679-687):
integral-float fold then `cast_id`. -/
def fcCleanupKey (ctx : FcCtx) (row : List Value) : Except RunErr Value :=
  cast_id (intIfIntegralFloat (row.getD (fieldIdx ctx.fields ctx.id_field) .vNull)) ctx.field_type

/-- Date normalization in the cleanup pass (lines 692-702): strings
parse and truncate to the second (unparseable strings raise); any other
value — including a datetime with live microseconds — is used as is. -/
def fcCleanupDate (ctx : FcCtx) (v : Value) : Except RunErr Value :=
  match v with
  | .vStr s =>
    match ctx.parse s with
    | some t => .ok (.vDate (tsTrunc t))
    | none => .error .uncaught
  | v => .ok v

/-- Cleanup decision for one batch row (lines 678-711): rows whose id
fell out of the dictionary are deleted (`KeyError` handler), rows whose
date no longer equals the dictionary date are deleted, the rest are
kept.  Returns `true` when the row survives. -/
def fcCleanupRow (ctx : FcCtx) (att : AttDict) (row : List Value) : Except RunErr Bool :=
  match fcCleanupKey ctx row with
  | .error e => .error e
  | .ok idK =>
    match dictLookup att idK with
    | none => .ok false
    | some id_vals =>
      match fcCleanupDate ctx (row.getD (fieldIdx ctx.fields ctx.dt_field) .vNull),
            fcCleanupDate ctx (id_vals.getD (fieldIdx ctx.fields ctx.dt_field) .vNull) with
      | .ok dtVal, .ok dict_date => .ok (pyValEq dict_date dtVal)
      | .error e, _ => .error e
      | _, .error e => .error e

/-- The cleanup cursor over the batch table, counting deletions. -/
def fcCleanupLoop (ctx : FcCtx) (att : AttDict) :
    List (List Value) → Nat → Except RunErr (List (List Value) × Nat)
  | [], del => .ok ([], del)
  | r :: rs, del =>
    match fcCleanupRow ctx att r with
    | .error e => .error e
    | .ok keep =>
      match fcCleanupLoop ctx att rs (if keep then del else del + 1) with
      | .error e => .error e
      | .ok rest => .ok ((if keep then [r] else []) ++ rest.1, rest.2)

/-- Result of a `remove_dups_fc` run: surviving batch table, recorded
null rows, update counter, the returned delete count (the code returns
`del_count - update_count`, line 715), and the feature class after the
cursor pass. -/
structure FcOut where
  table : List (List Value)
  nullRows : List (List Value)
  upd : Nat
  delRet : Nat
  store : List (List Value)
deriving DecidableEq, Repr

/-- `remove_dups_fc` (`import_records.py` lines 535-715) over a pure
batch table and feature-class row list.  An attribute dictionary of the
most recent report per id is built from the batch; the feature class is
scanned over the ids in the dictionary (updating, deleting or skipping
each store row); the batch is then cleaned against the dictionary.
With exactly one id in the dictionary the code evaluates
`att_dict.keys()[0]`, which raises a `TypeError` under Python 3. -/
def remove_dups_fc_run (ctx : FcCtx) (batch store : List (List Value)) :
    Except RunErr FcOut :=
  match fcBuild ctx batch [] [] with
  | .error e => .error e
  | .ok b =>
    let afterStore : Except RunErr (List (List Value) × AttDict × Nat) :=
      if b.2.isEmpty then .ok (store, b.2, 0)
      else if b.2.length = 1 then .error .uncaught
      else fcStoreLoop ctx (fcInPred ctx b.2) store b.2 0
    match afterStore with
    | .error e => .error e
    | .ok aft =>
      match fcCleanupLoop ctx aft.2.1 batch 0 with
      | .error e => .error e
      | .ok cleaned => .ok ⟨cleaned.1, b.1, aft.2.2, cleaned.2 - aft.2.2, aft.1⟩

/-- The shape of every `cast_id` result: an int or a string.  All
attribute-dictionary keys have this shape, on which Python `==`
coincides with structural equality. -/
def castShape (v : Value) : Prop := (∃ n, v = .vInt n) ∨ (∃ s, v = .vStr s)

/-- Does this batch row's cleanup key miss the dictionary?  Such a row
is deleted (and counted) by the cleanup pass's `KeyError` handler. -/
def keyMissing (ctx : FcCtx) (att : AttDict) (r : List Value) : Bool :=
  match fcCleanupKey ctx r with
  | .ok k => (dictLookup att k).isNone
  | .error _ => false

/-- Invariant of the attribute dictionary relative to the batch: every
key is a `cast_id`-shaped value, no two entries share a key, and every
key is the cleanup key of some batch row. -/
def dictOk (ctx : FcCtx) (batch : List (List Value)) (att : AttDict) : Prop :=
  (∀ k ∈ att.map Prod.fst, castShape k)
  ∧ (att.map Prod.fst).Nodup
  ∧ (∀ k ∈ att.map Prod.fst, ∃ r, r ∈ batch ∧ fcCleanupKey ctx r = .ok k)

/-! ## Helper lemmas -/

theorem length_filter_partition {α : Type} (p : α → Bool) (l : List α) :
    (l.filter p).length + (l.filter (fun x => !(p x))).length = l.length := by
  induction l with
  | nil => rfl
  | cons a l ih =>
    by_cases h : p a <;> simp [List.filter_cons, h] <;> omega

theorem dropAllButFirstMax_length (pred : List Value → Bool) (keyOf : List Value → Value)
    (mx : Value) (l : List (List Value)) :
    ∀ found, (dropAllButFirstMax pred keyOf mx l found).1.length
      + (dropAllButFirstMax pred keyOf mx l found).2 = l.length := by
  induction l with
  | nil => intro found; rfl
  | cons r rs ih =>
    intro found
    simp only [dropAllButFirstMax]
    split
    · split
      · have := ih true
        simp only [List.length_cons]
        omega
      · have := ih found
        simp only [List.length_cons]
        omega
    · have := ih found
      simp only [List.length_cons]
      omega

theorem collapseDupId_length (pred : List Value → Bool) (keyOf : List Value → Value)
    (table : List (List Value)) :
    (collapseDupId pred keyOf table).1.length + (collapseDupId pred keyOf table).2
      = table.length := by
  unfold collapseDupId
  cases h : latestKey keyOf (table.filter pred) with
  | none => rfl
  | some mx => exact dropAllButFirstMax_length pred keyOf mx table false

theorem fsDupFold_length (numericT : Bool) (idIdx dtIdx : Nat) (ids : List String) :
    ∀ (table : List (List Value)) (del : Nat),
      (fsDupFold numericT idIdx dtIdx ids table del).1.length
        + (fsDupFold numericT idIdx dtIdx ids table del).2 = table.length + del := by
  induction ids with
  | nil => intro table del; rfl
  | cons i rest ih =>
    intro table del
    simp only [fsDupFold]
    have h1 := collapseDupId_length
      (fun r => whereEqMatches numericT i (r.getD idIdx .vNull))
      (fun r => r.getD dtIdx .vNull) table
    have h2 := ih (collapseDupId (fun r => whereEqMatches numericT i (r.getD idIdx .vNull))
      (fun r => r.getD dtIdx .vNull) table).1
      (del + (collapseDupId (fun r => whereEqMatches numericT i (r.getD idIdx .vNull))
        (fun r => r.getD dtIdx .vNull) table).2)
    omega

theorem fsRowBody_counts (ctx : FsCtx) (srow : List Value) (idVal : Value) (ss : SideSt)
    (crow : List Value) (ss' : SideSt) (keep : Bool)
    (h : fsRowBody ctx srow idVal ss crow = .ok (ss', keep)) :
    ss'.del + ss'.upd + ss'.silent
      = ss.del + ss.upd + ss.silent + (if keep then 0 else 1) := by
  unfold fsRowBody at h
  cases hd : fsResolveDates ctx srow crow with
  | error e => rw [hd] at h; exact absurd h (by simp)
  | ok dd =>
    rw [hd] at h
    simp only at h
    by_cases h1 : tsLt dd.1 dd.2
    · simp only [h1, if_true, Except.ok.injEq, Prod.mk.injEq] at h
      obtain ⟨h2, h3⟩ := h
      subst h2; subst h3
      simp only [if_neg Bool.false_ne_true]
      omega
    · simp only [h1, if_false, Bool.false_eq_true] at h
      by_cases h2 : (compare_locations_fs ctx.fields srow crow ctx.loc_fields).1
      · simp only [h2, if_true, Except.ok.injEq, Prod.mk.injEq] at h
        obtain ⟨h3, h4⟩ := h
        subst h3; subst h4
        simp
      · simp only [h2, if_false, Bool.false_eq_true] at h
        cases hf : fsFieldInfo ctx (compare_locations_fs ctx.fields srow crow ctx.loc_fields).2 with
        | error e => rw [hf] at h; exact absurd h (by simp)
        | ok finfo =>
          rw [hf] at h
          dsimp only at h
          by_cases h3 : fsUpdateNeeded ctx srow finfo
          · simp only [h3, if_true, Except.ok.injEq, Prod.mk.injEq] at h
            obtain ⟨h4, h5⟩ := h
            subst h4; subst h5
            simp only [if_neg Bool.false_ne_true]
            omega
          · simp only [h3, if_false, Bool.false_eq_true, Except.ok.injEq, Prod.mk.injEq] at h
            obtain ⟨h4, h5⟩ := h
            subst h4; subst h5
            simp only [if_neg Bool.false_ne_true]
            omega

theorem fsCsvLoop_counts (ctx : FsCtx) (srow : List Value) (idVal : Value)
    (pred : List Value → Bool) (table : List (List Value)) :
    ∀ (ss : SideSt) (table' : List (List Value)) (ss' : SideSt),
      fsCsvLoop ctx srow idVal pred table ss = .ok (table', ss') →
      table'.length + ss'.del + ss'.upd + ss'.silent
        = table.length + ss.del + ss.upd + ss.silent := by
  induction table with
  | nil =>
    intro ss table' ss' h
    simp only [fsCsvLoop, Except.ok.injEq, Prod.mk.injEq] at h
    obtain ⟨h1, h2⟩ := h
    subst h1; subst h2
    simp
  | cons r rs ih =>
    intro ss table' ss' h
    simp only [fsCsvLoop] at h
    by_cases hp : pred r
    · simp only [hp, if_true] at h
      cases hb : fsRowBody ctx srow idVal ss r with
      | error e => rw [hb] at h; exact absurd h (by simp)
      | ok rb =>
        rw [hb] at h
        dsimp only at h
        cases hl : fsCsvLoop ctx srow idVal pred rs rb.1 with
        | error e => rw [hl] at h; exact absurd h (by simp)
        | ok rest =>
          rw [hl] at h
          simp only [Except.ok.injEq, Prod.mk.injEq] at h
          obtain ⟨h1, h2⟩ := h
          subst h1; subst h2
          have hrb := fsRowBody_counts ctx srow idVal ss r rb.1 rb.2 (by rw [hb])
          have hrest := ih rb.1 rest.1 rest.2 (by rw [hl])
          by_cases hk : rb.2 <;> simp [hk] at hrb ⊢ <;> omega
    · simp only [hp, if_false, Bool.false_eq_true] at h
      cases hl : fsCsvLoop ctx srow idVal pred rs ss with
      | error e => rw [hl] at h; exact absurd h (by simp)
      | ok rest =>
        rw [hl] at h
        simp only [Except.ok.injEq, Prod.mk.injEq] at h
        obtain ⟨h1, h2⟩ := h
        subst h1; subst h2
        have hrest := ih ss rest.1 rest.2 (by rw [hl])
        simp only [List.length_cons] at *
        omega

theorem fsServiceLoop_counts (ctx : FsCtx) (srows : List (List Value)) :
    ∀ (table : List (List Value)) (ss : SideSt) (table' : List (List Value)) (ss' : SideSt),
      fsServiceLoop ctx srows table ss = .ok (table', ss') →
      table'.length + ss'.del + ss'.upd + ss'.silent
        = table.length + ss.del + ss.upd + ss.silent := by
  induction srows with
  | nil =>
    intro table ss table' ss' h
    simp only [fsServiceLoop, Except.ok.injEq, Prod.mk.injEq] at h
    obtain ⟨h1, h2⟩ := h
    subst h1; subst h2
    rfl
  | cons srow rest ih =>
    intro table ss table' ss' h
    simp only [fsServiceLoop] at h
    cases hc : cast_id (getField ctx.fields srow ctx.id_field) (ctx.svcTypes ctx.id_field) with
    | error e => rw [hc] at h; exact absurd h (by simp)
    | ok idVal =>
      rw [hc] at h
      dsimp only at h
      cases hl : fsCsvLoop ctx srow idVal (rowMatchesId ctx idVal) table ss with
      | error e => rw [hl] at h; exact absurd h (by simp)
      | ok step =>
        rw [hl] at h
        have h1 := fsCsvLoop_counts ctx srow idVal (rowMatchesId ctx idVal) table ss
          step.1 step.2 (by rw [hl])
        have h2 := ih step.1 step.2 table' ss' h
        omega

theorem prep_table_length_core (p : List Value → Bool) (batch : List (List Value))
    (nT : Bool) (idIdx dtIdx : Nat) (ids : List String) :
    (fsDupFold nT idIdx dtIdx ids (batch.filter (fun r => !(p r)))
        (batch.filter p).length).1.length
      + (fsDupFold nT idIdx dtIdx ids (batch.filter (fun r => !(p r)))
        (batch.filter p).length).2
      = batch.length := by
  have h1 := fsDupFold_length nT idIdx dtIdx ids (batch.filter (fun r => !(p r)))
    (batch.filter p).length
  have h2 := length_filter_partition p batch
  omega

theorem prep_source_table_length (ctx : FsCtx) (batch : List (List Value)) :
    (prep_source_table ctx batch).1.length + (prep_source_table ctx batch).2.2.2
      = batch.length := by
  unfold prep_source_table
  exact prep_table_length_core (fsNullPred ctx) batch _ _ _ _

theorem pyValEq_refl (v : Value) : pyValEq v v = true := by
  cases v <;> simp [pyValEq]

theorem cast_id_shape (v : Value) (ft : String) (k : Value) (h : cast_id v ft = .ok k) :
    castShape k := by
  unfold cast_id at h
  by_cases hs : strContains ft "String"
  · simp only [hs, if_true, Except.ok.injEq] at h
    exact Or.inr ⟨pyStr v, h.symm⟩
  · simp only [hs, Bool.false_eq_true, if_false] at h
    cases hint : pyIntOf v with
    | ok n =>
      rw [hint] at h
      simp only [Except.ok.injEq] at h
      exact Or.inl ⟨n, h.symm⟩
    | error e =>
      rw [hint] at h
      cases e with
      | valueError =>
        simp only [Except.ok.injEq] at h
        exact Or.inr ⟨pyStr v, h.symm⟩
      | typeError => exact absurd h (by simp)

theorem pyValEq_shape_iff (a b : Value) (ha : castShape a) (hb : castShape b) :
    pyValEq a b = true ↔ a = b := by
  obtain ⟨n, rfl⟩ | ⟨s, rfl⟩ := ha <;> obtain ⟨m, rfl⟩ | ⟨t, rfl⟩ := hb <;>
    simp [pyValEq]

theorem dictLookup_none_of_all (att : AttDict) (k : Value)
    (h : ∀ kv ∈ att, pyValEq kv.1 k = false) : dictLookup att k = none := by
  induction att with
  | nil => rfl
  | cons kv rest ih =>
    unfold dictLookup
    rw [h kv (List.mem_cons_self kv rest)]
    simp only [Bool.false_eq_true, if_false]
    exact ih (fun kv' h' => h kv' (List.mem_cons_of_mem kv h'))

theorem all_of_dictLookup_none (att : AttDict) (k : Value)
    (h : dictLookup att k = none) : ∀ kv ∈ att, pyValEq kv.1 k = false := by
  induction att with
  | nil => intro kv hkv; exact absurd hkv (List.not_mem_nil kv)
  | cons kv₀ rest ih =>
    intro kv hkv
    unfold dictLookup at h
    by_cases he : pyValEq kv₀.1 k
    · rw [he] at h; simp at h
    · simp only [he, Bool.false_eq_true, if_false] at h
      rcases List.mem_cons.mp hkv with rfl | hmem
      · simpa using he
      · exact ih h kv hmem

theorem not_mem_keys_of_lookup_none (att : AttDict) (k : Value)
    (h : dictLookup att k = none) : k ∉ att.map Prod.fst := by
  intro hmem
  obtain ⟨kv, hkv, hfst⟩ := List.mem_map.mp hmem
  have := all_of_dictLookup_none att k h kv hkv
  rw [hfst] at this
  rw [pyValEq_refl k] at this
  exact absurd this (by simp)

theorem exists_entry_of_lookup_some (att : AttDict) (k : Value) (w : List Value)
    (h : dictLookup att k = some w) : ∃ kv ∈ att, pyValEq kv.1 k = true := by
  induction att with
  | nil => exact absurd h (by simp [dictLookup])
  | cons kv₀ rest ih =>
    unfold dictLookup at h
    by_cases he : pyValEq kv₀.1 k
    · exact ⟨kv₀, List.mem_cons_self kv₀ rest, he⟩
    · simp only [he, Bool.false_eq_true, if_false] at h
      obtain ⟨kv, hkv, hp⟩ := ih h
      exact ⟨kv, List.mem_cons_of_mem kv₀ hkv, hp⟩

theorem dictSet_keys_of_present (att : AttDict) (k : Value) (v w : List Value)
    (h : dictLookup att k = some w) :
    (dictSet att k v).map Prod.fst = att.map Prod.fst := by
  induction att with
  | nil => exact absurd h (by simp [dictLookup])
  | cons kv₀ rest ih =>
    unfold dictSet
    unfold dictLookup at h
    by_cases he : pyValEq kv₀.1 k
    · simp [he]
    · simp only [he, Bool.false_eq_true, if_false] at h ⊢
      simp only [List.map_cons, List.cons.injEq, true_and]
      exact ih h

theorem dictSet_keys_of_absent (att : AttDict) (k : Value) (v : List Value)
    (h : dictLookup att k = none) :
    (dictSet att k v).map Prod.fst = att.map Prod.fst ++ [k] := by
  induction att with
  | nil => rfl
  | cons kv₀ rest ih =>
    unfold dictSet
    unfold dictLookup at h
    by_cases he : pyValEq kv₀.1 k
    · rw [he] at h; simp at h
    · simp only [he, Bool.false_eq_true, if_false] at h ⊢
      simp only [List.map_cons, List.cons_append, List.cons.injEq, true_and]
      exact ih h

theorem dictSet_lookup_isNone (att : AttDict) (k : Value) (v w : List Value)
    (h : dictLookup att k = some w) (k' : Value) :
    (dictLookup (dictSet att k v) k').isNone = (dictLookup att k').isNone := by
  induction att with
  | nil => exact absurd h (by simp [dictLookup])
  | cons kv₀ rest ih =>
    unfold dictSet
    unfold dictLookup at h
    by_cases he : pyValEq kv₀.1 k
    · simp only [he, if_true]
      unfold dictLookup
      by_cases he' : pyValEq kv₀.1 k' <;> simp [he']
    · simp only [he, Bool.false_eq_true, if_false] at h ⊢
      unfold dictLookup
      by_cases he' : pyValEq kv₀.1 k'
      · simp [he']
      · simp only [he', Bool.false_eq_true, if_false]
        exact ih h

theorem mem_dictRemove (att : AttDict) (k : Value) (kv : Value × List Value)
    (h : kv ∈ dictRemove att k) : kv ∈ att := by
  induction att with
  | nil => exact absurd h (List.not_mem_nil kv)
  | cons kv₀ rest ih =>
    unfold dictRemove at h
    by_cases he : pyValEq kv₀.1 k
    · rw [if_pos he] at h
      exact List.mem_cons_of_mem kv₀ h
    · rw [if_neg he] at h
      rcases List.mem_cons.mp h with rfl | hmem
      · exact List.mem_cons_self _ rest
      · exact List.mem_cons_of_mem kv₀ (ih hmem)

theorem dictRemove_sublist (att : AttDict) (k : Value) : (dictRemove att k).Sublist att := by
  induction att with
  | nil => exact List.Sublist.refl []
  | cons kv₀ rest ih =>
    unfold dictRemove
    by_cases he : pyValEq kv₀.1 k
    · rw [if_pos he]
      exact List.sublist_cons_self kv₀ rest
    · rw [if_neg he]
      exact List.Sublist.cons₂ kv₀ ih

theorem dictRemove_preserves_none (att : AttDict) (k k' : Value)
    (h : dictLookup att k' = none) : dictLookup (dictRemove att k) k' = none := by
  apply dictLookup_none_of_all
  intro kv hkv
  exact all_of_dictLookup_none att k' h kv (mem_dictRemove att k kv hkv)

theorem dictRemove_lookup_none (att : AttDict) (k : Value)
    (hsh : ∀ k₀ ∈ att.map Prod.fst, castShape k₀) (hk : castShape k)
    (hnd : (att.map Prod.fst).Nodup) :
    dictLookup (dictRemove att k) k = none := by
  induction att with
  | nil => rfl
  | cons kv₀ rest ih =>
    simp only [List.map_cons, List.nodup_cons] at hnd
    unfold dictRemove
    by_cases he : pyValEq kv₀.1 k
    · rw [if_pos he]
      have hk₀ : castShape kv₀.1 :=
        hsh kv₀.1 (by simp)
      have hkeq : kv₀.1 = k := (pyValEq_shape_iff kv₀.1 k hk₀ hk).mp he
      apply dictLookup_none_of_all
      intro kv hkv
      have hkvsh : castShape kv.1 := hsh kv.1 (by
        simp only [List.map_cons, List.mem_cons]
        exact Or.inr (List.mem_map.mpr ⟨kv, hkv, rfl⟩))
      by_cases hp : pyValEq kv.1 k
      · have : kv.1 = k := (pyValEq_shape_iff kv.1 k hkvsh hk).mp hp
        rw [← hkeq] at this
        exact absurd (this ▸ List.mem_map.mpr ⟨kv, hkv, rfl⟩) hnd.1
      · simpa using hp
    · rw [if_neg he]
      unfold dictLookup
      simp only [he, Bool.false_eq_true, if_false]
      exact ih (fun k₀ hk₀ => hsh k₀ (by simp only [List.map_cons, List.mem_cons]; exact Or.inr hk₀))
        hnd.2

theorem nodup_append_single {α : Type} (l : List α) (a : α) (hnd : l.Nodup) (ha : a ∉ l) :
    (l ++ [a]).Nodup := by
  induction l with
  | nil => simp
  | cons b bs ih =>
    simp only [List.nodup_cons] at hnd
    simp only [List.mem_cons, not_or] at ha
    simp only [List.cons_append, List.nodup_cons]
    constructor
    · simp only [List.mem_append, List.mem_singleton, not_or]
      exact ⟨hnd.1, fun hb => ha.1 hb.symm⟩
    · exact ih hnd.2 ha.2

theorem countP_le_of_imp {α : Type} (l : List α) (p q : α → Bool)
    (h : ∀ a ∈ l, p a = true → q a = true) : l.countP p ≤ l.countP q := by
  induction l with
  | nil => exact Nat.le_refl 0
  | cons a rest ih =>
    simp only [List.countP_cons]
    have hrest := ih (fun a' ha' => h a' (List.mem_cons_of_mem a ha'))
    by_cases hp : p a
    · rw [h a (List.mem_cons_self a rest) hp]
      simp only [hp, if_true]
      omega
    · simp only [hp, Bool.false_eq_true, if_false]
      by_cases hq : q a <;> simp only [hq, if_true, Bool.false_eq_true, if_false] <;> omega

theorem countP_succ_le_of_witness {α : Type} (l : List α) (p q : α → Bool)
    (h : ∀ a ∈ l, p a = true → q a = true) (r : α) (hr : r ∈ l)
    (hp : p r = false) (hq : q r = true) : l.countP p + 1 ≤ l.countP q := by
  induction l with
  | nil => exact absurd hr (List.not_mem_nil r)
  | cons a rest ih =>
    simp only [List.countP_cons]
    rcases List.mem_cons.mp hr with rfl | hmem
    · rw [hp, hq]
      simp only [Bool.false_eq_true, if_false, if_true]
      have := countP_le_of_imp rest p q (fun a' ha' => h a' (List.mem_cons_of_mem r ha'))
      omega
    · have hrest := ih (fun a' ha' => h a' (List.mem_cons_of_mem a ha')) hmem
      by_cases hpa : p a
      · rw [h a (List.mem_cons_self a rest) hpa]
        simp only [hpa, if_true]
        omega
      · simp only [hpa, Bool.false_eq_true, if_false]
        by_cases hqa : q a <;> simp only [hqa, if_true, Bool.false_eq_true, if_false] <;> omega

theorem countP_congr_own {α : Type} (l : List α) (p q : α → Bool)
    (h : ∀ a ∈ l, p a = q a) : l.countP p = l.countP q := by
  induction l with
  | nil => rfl
  | cons a rest ih =>
    simp only [List.countP_cons]
    rw [h a (List.mem_cons_self a rest),
      ih (fun a' ha' => h a' (List.mem_cons_of_mem a ha'))]

theorem fcCleanupRow_false_of_missing (ctx : FcCtx) (att : AttDict) (r : List Value)
    (h : keyMissing ctx att r = true) : fcCleanupRow ctx att r = .ok false := by
  unfold keyMissing at h
  cases hk : fcCleanupKey ctx r with
  | error e => rw [hk] at h; exact absurd h (by simp)
  | ok k =>
    rw [hk] at h
    unfold fcCleanupRow
    rw [hk]
    dsimp only
    rw [Option.isNone_iff_eq_none.mp h]

theorem fcCleanupLoop_counts (ctx : FcCtx) (att : AttDict) :
    ∀ (rows : List (List Value)) (del : Nat) (out : List (List Value) × Nat),
      fcCleanupLoop ctx att rows del = .ok out →
      out.1.length + out.2 = rows.length + del := by
  intro rows
  induction rows with
  | nil =>
    intro del out h
    simp only [fcCleanupLoop, Except.ok.injEq] at h
    subst h
    rfl
  | cons r rs ih =>
    intro del out h
    simp only [fcCleanupLoop] at h
    cases hr : fcCleanupRow ctx att r with
    | error e => rw [hr] at h; exact absurd h (by simp)
    | ok keep =>
      rw [hr] at h
      dsimp only at h
      cases hl : fcCleanupLoop ctx att rs (if keep then del else del + 1) with
      | error e => rw [hl] at h; exact absurd h (by simp)
      | ok rest =>
        rw [hl] at h
        simp only [Except.ok.injEq] at h
        subst h
        have hrest := ih (if keep then del else del + 1) rest hl
        by_cases hk : keep <;> simp [hk] at hrest ⊢ <;> omega

theorem fcCleanupLoop_missing_le (ctx : FcCtx) (att : AttDict) :
    ∀ (rows : List (List Value)) (del : Nat) (out : List (List Value) × Nat),
      fcCleanupLoop ctx att rows del = .ok out →
      del + rows.countP (keyMissing ctx att) ≤ out.2 := by
  intro rows
  induction rows with
  | nil =>
    intro del out h
    simp only [fcCleanupLoop, Except.ok.injEq] at h
    subst h
    simp
  | cons r rs ih =>
    intro del out h
    simp only [fcCleanupLoop] at h
    cases hr : fcCleanupRow ctx att r with
    | error e => rw [hr] at h; exact absurd h (by simp)
    | ok keep =>
      rw [hr] at h
      dsimp only at h
      cases hl : fcCleanupLoop ctx att rs (if keep then del else del + 1) with
      | error e => rw [hl] at h; exact absurd h (by simp)
      | ok rest =>
        rw [hl] at h
        simp only [Except.ok.injEq] at h
        subst h
        have hrest := ih (if keep then del else del + 1) rest hl
        simp only [List.countP_cons]
        by_cases hm : keyMissing ctx att r
        · have hfalse : fcCleanupRow ctx att r = .ok false :=
            fcCleanupRow_false_of_missing ctx att r hm
          rw [hr] at hfalse
          simp only [Except.ok.injEq] at hfalse
          subst hfalse
          simp only [Bool.false_eq_true, if_false] at hrest
          simp only [hm, if_true]
          omega
        · simp only [hm, Bool.false_eq_true, if_false]
          by_cases hk : keep <;> simp only [hk, if_true, Bool.false_eq_true, if_false] at hrest <;>
            omega

theorem keyMissing_mono_remove (ctx : FcCtx) (att : AttDict) (k : Value) (r : List Value)
    (h : keyMissing ctx att r = true) : keyMissing ctx (dictRemove att k) r = true := by
  unfold keyMissing at h ⊢
  cases hk : fcCleanupKey ctx r with
  | error e => rw [hk] at h; exact absurd h (by simp)
  | ok k' =>
    rw [hk] at h
    dsimp only at h ⊢
    rw [Option.isNone_iff_eq_none] at h ⊢
    exact dictRemove_preserves_none att k k' h

theorem keyMissing_congr_set (ctx : FcCtx) (att : AttDict) (k : Value) (v w : List Value)
    (hsome : dictLookup att k = some w) (r : List Value) :
    keyMissing ctx (dictSet att k v) r = keyMissing ctx att r := by
  unfold keyMissing
  cases fcCleanupKey ctx r with
  | error e => rfl
  | ok k' => exact dictSet_lookup_isNone att k v w hsome k'

theorem dictOk_set_present (ctx : FcCtx) (B : List (List Value)) (att : AttDict)
    (k : Value) (v w : List Value) (hsome : dictLookup att k = some w)
    (hok : dictOk ctx B att) : dictOk ctx B (dictSet att k v) := by
  obtain ⟨hsh, hnd, hcov⟩ := hok
  rw [dictOk, dictSet_keys_of_present att k v w hsome]
  exact ⟨hsh, hnd, hcov⟩

theorem dictOk_remove (ctx : FcCtx) (B : List (List Value)) (att : AttDict) (k : Value)
    (hok : dictOk ctx B att) : dictOk ctx B (dictRemove att k) := by
  obtain ⟨hsh, hnd, hcov⟩ := hok
  have hsub : ((dictRemove att k).map Prod.fst).Sublist (att.map Prod.fst) :=
    List.Sublist.map Prod.fst (dictRemove_sublist att k)
  refine ⟨?_, hnd.sublist hsub, ?_⟩
  · intro k₀ hk₀
    exact hsh k₀ (hsub.subset hk₀)
  · intro k₀ hk₀
    exact hcov k₀ (hsub.subset hk₀)

theorem fcProcessStoreRow_step (ctx : FcCtx) (B : List (List Value)) (att : AttDict)
    (upd : Nat) (fcrow : List Value) (out : AttDict × Nat × Option (List Value))
    (h : fcProcessStoreRow ctx att upd fcrow = .ok out) (hok : dictOk ctx B att) :
    dictOk ctx B out.1
    ∧ out.2.1 + B.countP (keyMissing ctx att) ≤ upd + B.countP (keyMissing ctx out.1) := by
  unfold fcProcessStoreRow at h
  cases hk : fcRowKey ctx fcrow with
  | error e => rw [hk] at h; exact absurd h (by simp)
  | ok idK =>
    rw [hk] at h
    dsimp only at h
    cases hl : dictLookup att idK with
    | none =>
      rw [hl] at h
      simp only [Except.ok.injEq] at h
      subst h
      exact ⟨hok, Nat.le_refl _⟩
    | some id_vals =>
      rw [hl] at h
      dsimp only at h
      cases hd : compare_dates_fc ctx.parse ctx.fields ctx.dt_field fcrow id_vals with
      | error e => rw [hd] at h; exact absurd h (by simp)
      | ok st =>
        rw [hd] at h
        dsimp only at h
        by_cases hst : st
        · simp only [hst, if_true, Except.ok.injEq] at h
          subst h
          refine ⟨dictOk_set_present ctx B att idK fcrow id_vals hl hok, ?_⟩
          rw [countP_congr_own B _ _ (fun r _ => keyMissing_congr_set ctx att idK fcrow id_vals hl r)]
        · simp only [hst, Bool.false_eq_true, if_false] at h
          by_cases hloc : (compare_locations_fc ctx.fields fcrow id_vals ctx.loc_fields).1
          · simp only [hloc, if_true, Except.ok.injEq] at h
            subst h
            refine ⟨dictOk_set_present ctx B att idK _ id_vals hl hok, ?_⟩
            rw [countP_congr_own B _ _ (fun r _ => keyMissing_congr_set ctx att idK _ id_vals hl r)]
          · simp only [hloc, Bool.false_eq_true, if_false, Except.ok.injEq] at h
            subst h
            refine ⟨dictOk_remove ctx B att idK hok, ?_⟩
            have hshK : castShape idK := cast_id_shape _ _ _ hk
            obtain ⟨kv, hkv, hp⟩ := exists_entry_of_lookup_some att idK id_vals hl
            have hkvmem : kv.1 ∈ att.map Prod.fst := List.mem_map.mpr ⟨kv, hkv, rfl⟩
            have hkvsh : castShape kv.1 := hok.1 kv.1 hkvmem
            have hkeq : kv.1 = idK := (pyValEq_shape_iff kv.1 idK hkvsh hshK).mp hp
            have hmemK : idK ∈ att.map Prod.fst := hkeq ▸ hkvmem
            obtain ⟨r, hrB, hrk⟩ := hok.2.2 idK hmemK
            have hpr : keyMissing ctx att r = false := by
              unfold keyMissing
              rw [hrk]
              dsimp only
              rw [hl]
              rfl
            have hqr : keyMissing ctx (dictRemove att idK) r = true := by
              unfold keyMissing
              rw [hrk]
              dsimp only
              rw [Option.isNone_iff_eq_none]
              exact dictRemove_lookup_none att idK hok.1 hshK hok.2.1
            have hstep := countP_succ_le_of_witness B (keyMissing ctx att)
              (keyMissing ctx (dictRemove att idK))
              (fun a _ ha => keyMissing_mono_remove ctx att idK a ha) r hrB hpr hqr
            dsimp only
            omega

theorem fcStoreLoop_chain (ctx : FcCtx) (B : List (List Value)) (pred : List Value → Bool) :
    ∀ (rows : List (List Value)) (att : AttDict) (upd : Nat)
      (out : List (List Value) × AttDict × Nat),
      fcStoreLoop ctx pred rows att upd = .ok out → dictOk ctx B att →
      dictOk ctx B out.2.1
      ∧ out.2.2 + B.countP (keyMissing ctx att) ≤ upd + B.countP (keyMissing ctx out.2.1) := by
  intro rows
  induction rows with
  | nil =>
    intro att upd out h hok
    simp only [fcStoreLoop, Except.ok.injEq] at h
    subst h
    exact ⟨hok, Nat.le_refl _⟩
  | cons r rs ih =>
    intro att upd out h hok
    simp only [fcStoreLoop] at h
    by_cases hp : pred r
    · simp only [hp, if_true] at h
      cases hs : fcProcessStoreRow ctx att upd r with
      | error e => rw [hs] at h; exact absurd h (by simp)
      | ok step =>
        rw [hs] at h
        dsimp only at h
        cases hl : fcStoreLoop ctx pred rs step.1 step.2.1 with
        | error e => rw [hl] at h; exact absurd h (by simp)
        | ok rest =>
          rw [hl] at h
          simp only [Except.ok.injEq] at h
          subst h
          obtain ⟨hok1, hle1⟩ := fcProcessStoreRow_step ctx B att upd r step hs hok
          obtain ⟨hok2, hle2⟩ := ih step.1 step.2.1 rest hl hok1
          dsimp only
          exact ⟨hok2, by omega⟩
    · simp only [hp, Bool.false_eq_true, if_false] at h
      cases hl : fcStoreLoop ctx pred rs att upd with
      | error e => rw [hl] at h; exact absurd h (by simp)
      | ok rest =>
        rw [hl] at h
        simp only [Except.ok.injEq] at h
        subst h
        exact ih att upd rest hl hok

theorem fcBuild_dictOk (ctx : FcCtx) (B : List (List Value)) :
    ∀ (rows nulls : List (List Value)) (att : AttDict)
      (out : List (List Value) × AttDict),
      fcBuild ctx rows nulls att = .ok out → dictOk ctx B att → (∀ r ∈ rows, r ∈ B) →
      dictOk ctx B out.2 := by
  intro rows
  induction rows with
  | nil =>
    intro nulls att out h hok _
    simp only [fcBuild, Except.ok.injEq] at h
    subst h
    exact hok
  | cons row rest ih =>
    intro nulls att out h hok hin
    have hrest : ∀ r ∈ rest, r ∈ B := fun r hr => hin r (List.mem_cons_of_mem row hr)
    have hrow : row ∈ B := hin row (List.mem_cons_self row rest)
    simp only [fcBuild] at h
    by_cases hn : (row.getD (fieldIdx ctx.fields ctx.id_field) Value.vNull = Value.vNull
        || row.getD (fieldIdx ctx.fields ctx.dt_field) Value.vNull = Value.vNull : Bool)
    · rw [if_pos hn] at h
      exact ih (nulls ++ [row]) att out h hok hrest
    · rw [if_neg hn] at h
      cases hc : cast_id (intIfIntegralFloat
          (row.getD (fieldIdx ctx.fields ctx.id_field) Value.vNull)) ctx.field_type with
      | error e => rw [hc] at h; exact absurd h (by simp)
      | ok idK =>
        rw [hc] at h
        dsimp only at h
        cases hl : dictLookup att idK with
        | some id_vals =>
          rw [hl] at h
          dsimp only at h
          cases hd : compare_dates_fc ctx.parse ctx.fields ctx.dt_field row id_vals with
          | error e => rw [hd] at h; exact absurd h (by simp)
          | ok st =>
            rw [hd] at h
            dsimp only at h
            by_cases hst : st
            · rw [if_pos hst] at h
              exact ih nulls (dictSet att idK row) out h
                (dictOk_set_present ctx B att idK row id_vals hl hok) hrest
            · rw [if_neg hst] at h
              exact ih nulls att out h hok hrest
        | none =>
          rw [hl] at h
          dsimp only at h
          refine ih nulls (dictSet att idK row) out h ?_ hrest
          obtain ⟨hsh, hnd, hcov⟩ := hok
          rw [dictOk, dictSet_keys_of_absent att idK row hl]
          refine ⟨?_, ?_, ?_⟩
          · intro k hk
            rcases List.mem_append.mp hk with hk | hk
            · exact hsh k hk
            · rw [List.mem_singleton.mp hk]
              exact cast_id_shape _ _ _ hc
          · exact nodup_append_single _ idK hnd (not_mem_keys_of_lookup_none att idK hl)
          · intro k hk
            rcases List.mem_append.mp hk with hk | hk
            · exact hcov k hk
            · refine ⟨row, hrow, ?_⟩
              rw [List.mem_singleton.mp hk]
              unfold fcCleanupKey
              exact hc

theorem remove_dups_fc_conservation (ctx : FcCtx) (batch store : List (List Value))
    (out : FcOut) (h : remove_dups_fc_run ctx batch store = .ok out) :
    out.table.length + out.upd + out.delRet = batch.length := by
  unfold remove_dups_fc_run at h
  cases hb : fcBuild ctx batch [] [] with
  | error e => rw [hb] at h; exact absurd h (by simp)
  | ok b =>
    rw [hb] at h
    dsimp only at h
    by_cases h1 : b.2.isEmpty
    · simp only [h1, if_true] at h
      cases hc : fcCleanupLoop ctx b.2 batch 0 with
      | error e => rw [hc] at h; exact absurd h (by simp)
      | ok cleaned =>
        rw [hc] at h
        simp only [Except.ok.injEq] at h
        subst h
        have := fcCleanupLoop_counts ctx b.2 batch 0 cleaned hc
        simp only
        omega
    · simp only [h1, Bool.false_eq_true, if_false] at h
      by_cases h2 : b.2.length = 1
      · simp only [h2, if_true] at h
        exact absurd h (by simp)
      · simp only [h2, if_false] at h
        cases hs : fcStoreLoop ctx (fcInPred ctx b.2) store b.2 0 with
        | error e => rw [hs] at h; exact absurd h (by simp)
        | ok aft =>
          rw [hs] at h
          dsimp only at h
          cases hc : fcCleanupLoop ctx aft.2.1 batch 0 with
          | error e => rw [hc] at h; exact absurd h (by simp)
          | ok cleaned =>
            rw [hc] at h
            simp only [Except.ok.injEq] at h
            subst h
            have hok0 : dictOk ctx batch ([] : AttDict) := by
              refine ⟨?_, ?_, ?_⟩ <;> simp [dictOk]
            have hbuilt := fcBuild_dictOk ctx batch batch [] [] b hb hok0 (fun r hr => hr)
            obtain ⟨hokAft, hle⟩ :=
              fcStoreLoop_chain ctx batch (fcInPred ctx b.2) store b.2 0 aft hs hbuilt
            have hcounts := fcCleanupLoop_counts ctx aft.2.1 batch 0 cleaned hc
            have hmiss := fcCleanupLoop_missing_le ctx aft.2.1 batch 0 cleaned hc
            have hcntnonneg : (0 : Nat) ≤ batch.countP (keyMissing ctx b.2) := Nat.zero_le _
            simp only
            omega

/-! ## Claim theorems -/

/-- C5 (corrected), counterexample: on a batch holding one record with
null id and date and an empty store, `remove_dups_fs` returns an empty
surviving table, one null record, update count 0 and delete count 1 —
the null rejection is already counted in the returned delete count, so
the claimed sum `insertCandidates + updateCount + deleteCount +
rejectedNullCount` is 2, not the original batch size 1. -/
theorem C5_count_conservation_counterexample :
    remove_dups_fs_run
        ⟨["ID", "DATE"], "ID", "DATE", [], fun _ => none, fun _ => "String", "String"⟩
        [[Value.vNull, Value.vNull]] []
      = .ok ⟨[], [[Value.vNull, Value.vNull]], 0, 1, 0, [], []⟩
    ∧ ¬ ((0 : Nat) + 0 + 1 + 1 = 1) := by
  constructor
  · rfl
  · decide

/-- C5 (corrected), amended claim, covering both reconciliation
variants.  For every completed `remove_dups_fs` run:
`insertCandidates.size + updateCount + deleteCount + silentDropCount =
originalBatchSize`, where the rejected null-field records and the
intra-batch duplicate discards are already included in `deleteCount`
(so the null count must not be added separately), and `silentDropCount`
counts the batch records dropped with no counter at all because no
attribute differed from the store record.  For every completed
`remove_dups_fc` run: `insertCandidates.size + updateCount +
returnedDeleteCount = originalBatchSize`, where the returned delete
count is the code's `del_count - update_count` (line 715) and the
cleanup-pass `del_count` already absorbs the null rejections, the
intra-batch duplicate discards and the rows consumed by updates, so
nothing is added separately (the subtraction never truncates: every
update removes a dictionary key that some batch row still maps to, and
the cleanup pass deletes and counts all such rows). -/
theorem C5_count_conservation_amended :
    (∀ (ctx : FsCtx) (batch store : List (List Value)) (out : FsOut),
        remove_dups_fs_run ctx batch store = .ok out →
        out.table.length + out.upd + out.del + out.silent = batch.length)
    ∧ (∀ (ctx : FcCtx) (batch store : List (List Value)) (out : FcOut),
        remove_dups_fc_run ctx batch store = .ok out →
        out.table.length + out.upd + out.delRet = batch.length) := by
  constructor
  · intro ctx batch store out h
    unfold remove_dups_fs_run at h
    dsimp only at h
    split at h
    · simp only [Except.ok.injEq] at h
      subst h
      have := prep_source_table_length ctx batch
      simp only
      omega
    · split at h
      · exact absurd h (by simp)
      · cases hl : fsServiceLoop ctx
            ((store.filter (fun r =>
              (List.filter (fun s => (store.map (fun r =>
                pyStr (r.getD (fieldIdx ctx.fields ctx.id_field) .vNull))).contains s)
                (dedupStr (prep_source_table ctx batch).2.2.1)).contains
                (pyStr (r.getD (fieldIdx ctx.fields ctx.id_field) .vNull)))))
            (prep_source_table ctx batch).1
            ⟨store, [], 0, (prep_source_table ctx batch).2.2.2, 0⟩ with
        | error e => rw [hl] at h; exact absurd h (by simp)
        | ok step =>
          rw [hl] at h
          simp only [Except.ok.injEq] at h
          subst h
          have h1 := fsServiceLoop_counts ctx _ _ _ _ _ hl
          have h2 := prep_source_table_length ctx batch
          simp only at h1 ⊢
          omega
  · exact remove_dups_fc_conservation

/-- C5 witness: the conservation equations instantiated on concrete
completed runs of both variants — a single-null-record service run and
a two-record feature-class run with one in-place update. -/
theorem C5_count_conservation_witness :
    ((⟨[], [[Value.vNull, Value.vNull]], 0, 1, 0, [], []⟩ : FsOut).table.length
      + (⟨[], [[Value.vNull, Value.vNull]], 0, 1, 0, [], []⟩ : FsOut).upd
      + (⟨[], [[Value.vNull, Value.vNull]], 0, 1, 0, [], []⟩ : FsOut).del
      + (⟨[], [[Value.vNull, Value.vNull]], 0, 1, 0, [], []⟩ : FsOut).silent
      = [[Value.vNull, Value.vNull]].length)
    ∧ ((⟨[[Value.vStr "B", Value.vDate ⟨1000, 0⟩, Value.vStr "Y"]], [], 1, 0,
          [[Value.vStr "A", Value.vDate ⟨1000, 0⟩, Value.vStr "X"]]⟩ : FcOut).table.length
      + (⟨[[Value.vStr "B", Value.vDate ⟨1000, 0⟩, Value.vStr "Y"]], [], 1, 0,
          [[Value.vStr "A", Value.vDate ⟨1000, 0⟩, Value.vStr "X"]]⟩ : FcOut).upd
      + (⟨[[Value.vStr "B", Value.vDate ⟨1000, 0⟩, Value.vStr "Y"]], [], 1, 0,
          [[Value.vStr "A", Value.vDate ⟨1000, 0⟩, Value.vStr "X"]]⟩ : FcOut).delRet
      = [[Value.vStr "A", Value.vDate ⟨1000, 0⟩, Value.vStr "X"],
         [Value.vStr "B", Value.vDate ⟨1000, 0⟩, Value.vStr "Y"]].length) :=
  ⟨C5_count_conservation_amended.1
      ⟨["ID", "DATE"], "ID", "DATE", [], fun _ => none, fun _ => "String", "String"⟩
      [[Value.vNull, Value.vNull]] [] _ rfl,
   C5_count_conservation_amended.2
      ⟨["ID", "DATE", "ADDR"], "ID", "DATE", ["ADDR"], fun _ => none, "String", "String"⟩
      [[Value.vStr "A", Value.vDate ⟨1000, 0⟩, Value.vStr "X"],
       [Value.vStr "B", Value.vDate ⟨1000, 0⟩, Value.vStr "Y"]]
      [[Value.vStr "A", Value.vDate ⟨1000, 0⟩, Value.vStr "X"]] _ rfl⟩

/-- C1 (confirmed), timestamp monotonicity.  Service variant: whenever
the per-id resolution resolves the (second-truncated) dates and the
batch record's date is strictly older than the service record's, the
body deletes the batch row, increments only the delete counter, and
leaves the service rows and the queued updates untouched.
Feature-class variant: when `compare_dates_fc` finds the store row
strictly more recent than the dictionary's batch record, the cursor body
keeps the store row unmodified with the update counter unchanged (the
dictionary takes the store row's values), and the cleanup pass then
deletes any batch row whose date no longer equals its dictionary date —
each such deletion is counted by `fcCleanupLoop`'s delete counter. -/
theorem C1_timestamp_monotonicity :
    (∀ (ctx : FsCtx) (srow : List Value) (idVal : Value) (ss : SideSt) (crow : List Value)
        (dd : Timestamp × Timestamp),
        fsResolveDates ctx srow crow = .ok dd →
        tsLt dd.1 dd.2 = true →
        fsRowBody ctx srow idVal ss crow = .ok ({ ss with del := ss.del + 1 }, false))
    ∧ (∀ (ctx : FcCtx) (att : AttDict) (upd : Nat) (fcrow : List Value) (idK : Value)
        (id_vals : List Value),
        fcRowKey ctx fcrow = .ok idK →
        dictLookup att idK = some id_vals →
        compare_dates_fc ctx.parse ctx.fields ctx.dt_field fcrow id_vals = .ok true →
        fcProcessStoreRow ctx att upd fcrow = .ok (dictSet att idK fcrow, upd, some fcrow))
    ∧ (∀ (ctx : FcCtx) (att : AttDict) (row : List Value) (idK : Value)
        (id_vals : List Value) (dv gv : Value),
        fcCleanupKey ctx row = .ok idK →
        dictLookup att idK = some id_vals →
        fcCleanupDate ctx (row.getD (fieldIdx ctx.fields ctx.dt_field) .vNull) = .ok dv →
        fcCleanupDate ctx (id_vals.getD (fieldIdx ctx.fields ctx.dt_field) .vNull) = .ok gv →
        pyValEq gv dv = false →
        fcCleanupRow ctx att row = .ok false) := by
  refine ⟨?_, ?_, ?_⟩
  · intro ctx srow idVal ss crow dd hd hlt
    unfold fsRowBody
    rw [hd]
    simp only [hlt, if_true]
  · intro ctx att upd fcrow idK id_vals hk hl hcd
    unfold fcProcessStoreRow
    rw [hk]
    dsimp only
    rw [hl]
    dsimp only
    rw [hcd]
    simp only [if_true]
  · intro ctx att row idK id_vals dv gv hk hl hdv hgv hne
    unfold fcCleanupRow
    rw [hk]
    dsimp only
    rw [hl]
    dsimp only
    rw [hdv, hgv]
    simp only [hne]

/-- C1 witness: a concrete batch row one hundred seconds older than the
service row is deleted from the batch with the delete counter bumped
and the store untouched. -/
theorem C1_timestamp_monotonicity_witness :
    fsRowBody ⟨["ID", "DATE"], "ID", "DATE", [], fun _ => none, fun _ => "Date", "String"⟩
        [Value.vStr "A", Value.vInt 200] (Value.vStr "A")
        ⟨[], [], 0, 0, 0⟩ [Value.vStr "A", Value.vDate ⟨100, 0⟩]
      = .ok (⟨[], [], 0, 1, 0⟩, false) :=
  C1_timestamp_monotonicity.1
    ⟨["ID", "DATE"], "ID", "DATE", [], fun _ => none, fun _ => "Date", "String"⟩
    [Value.vStr "A", Value.vInt 200] (Value.vStr "A")
    ⟨[], [], 0, 0, 0⟩ [Value.vStr "A", Value.vDate ⟨100, 0⟩]
    (⟨100, 0⟩, ⟨200, 0⟩) rfl rfl

/-- C2 (confirmed), location change triggers replacement.  Service
variant: with a same-age-or-newer batch record, if the type-tolerant
location comparison reports a difference, the body deletes the service
rows matching the id, keeps the batch row (it survives as an insert
candidate), and queues no update (counters untouched).  Feature-class
variant: the cursor body deletes the store row with the update counter
unchanged (the dictionary keeps the id), and the cleanup pass keeps the
batch row whenever its date still equals its dictionary date. -/
theorem C2_location_change_replaces :
    (∀ (ctx : FsCtx) (srow : List Value) (idVal : Value) (ss : SideSt) (crow : List Value)
        (dd : Timestamp × Timestamp),
        fsResolveDates ctx srow crow = .ok dd →
        tsLt dd.1 dd.2 = false →
        (compare_locations_fs ctx.fields srow crow ctx.loc_fields).1 = true →
        fsRowBody ctx srow idVal ss crow =
          .ok ({ ss with store := ss.store.filter (fun r => !(rowMatchesId ctx idVal r)) },
            true))
    ∧ (∀ (ctx : FcCtx) (att : AttDict) (upd : Nat) (fcrow : List Value) (idK : Value)
        (id_vals : List Value),
        fcRowKey ctx fcrow = .ok idK →
        dictLookup att idK = some id_vals →
        compare_dates_fc ctx.parse ctx.fields ctx.dt_field fcrow id_vals = .ok false →
        (compare_locations_fc ctx.fields fcrow id_vals ctx.loc_fields).1 = true →
        fcProcessStoreRow ctx att upd fcrow =
          .ok (dictSet att idK
            (compare_locations_fc ctx.fields fcrow id_vals ctx.loc_fields).2.1, upd, none))
    ∧ (∀ (ctx : FcCtx) (att : AttDict) (row : List Value) (idK : Value)
        (id_vals : List Value) (dv gv : Value),
        fcCleanupKey ctx row = .ok idK →
        dictLookup att idK = some id_vals →
        fcCleanupDate ctx (row.getD (fieldIdx ctx.fields ctx.dt_field) .vNull) = .ok dv →
        fcCleanupDate ctx (id_vals.getD (fieldIdx ctx.fields ctx.dt_field) .vNull) = .ok gv →
        pyValEq gv dv = true →
        fcCleanupRow ctx att row = .ok true) := by
  refine ⟨?_, ?_, ?_⟩
  · intro ctx srow idVal ss crow dd hd hlt hloc
    unfold fsRowBody
    rw [hd]
    simp only [hlt, Bool.false_eq_true, if_false, hloc, if_true]
  · intro ctx att upd fcrow idK id_vals hk hl hcd hloc
    unfold fcProcessStoreRow
    rw [hk]
    dsimp only
    rw [hl]
    dsimp only
    rw [hcd]
    simp only [Bool.false_eq_true, if_false, hloc, if_true]
  · intro ctx att row idK id_vals dv gv hk hl hdv hgv heq
    unfold fcCleanupRow
    rw [hk]
    dsimp only
    rw [hl]
    dsimp only
    rw [hdv, hgv]
    simp only [heq]

/-- C2 witness: a same-second batch record with a different address
deletes the matching service row, keeps the batch row, and queues
nothing. -/
theorem C2_location_change_replaces_witness :
    fsRowBody
        ⟨["ID", "DATE", "ADDR"], "ID", "DATE", ["ADDR"], fun _ => none,
          fun _ => "Date", "String"⟩
        [Value.vStr "A", Value.vInt 100, Value.vStr "1 Main St"] (Value.vStr "A")
        ⟨[[Value.vStr "A", Value.vInt 100, Value.vStr "1 Main St"]], [], 0, 0, 0⟩
        [Value.vStr "A", Value.vDate ⟨100, 0⟩, Value.vStr "9 Elm St"]
      = .ok (⟨[], [], 0, 0, 0⟩, true) :=
  C2_location_change_replaces.1
    ⟨["ID", "DATE", "ADDR"], "ID", "DATE", ["ADDR"], fun _ => none,
      fun _ => "Date", "String"⟩
    [Value.vStr "A", Value.vInt 100, Value.vStr "1 Main St"] (Value.vStr "A")
    ⟨[[Value.vStr "A", Value.vInt 100, Value.vStr "1 Main St"]], [], 0, 0, 0⟩
    [Value.vStr "A", Value.vDate ⟨100, 0⟩, Value.vStr "9 Elm St"]
    (⟨100, 0⟩, ⟨100, 0⟩) rfl rfl rfl

/-- C3 (corrected), counterexample: in `remove_dups_fc`, a batch record
byte-identical to its store record (same id `A`, same date, same
location, no differing field) still produces `update_count = 1` — the
feature-class variant updates the store row in place unconditionally,
with no `updateNeeded` check, so "update queued iff some field differs"
is false for the code as a whole. -/
theorem C3_update_only_on_diff_counterexample :
    remove_dups_fc_run
        ⟨["ID", "DATE", "ADDR"], "ID", "DATE", ["ADDR"], fun _ => none, "String", "String"⟩
        [[Value.vStr "A", Value.vDate ⟨1000, 0⟩, Value.vStr "X"],
         [Value.vStr "B", Value.vDate ⟨1000, 0⟩, Value.vStr "Y"]]
        [[Value.vStr "A", Value.vDate ⟨1000, 0⟩, Value.vStr "X"]]
      = .ok ⟨[[Value.vStr "B", Value.vDate ⟨1000, 0⟩, Value.vStr "Y"]], [], 1, 0,
          [[Value.vStr "A", Value.vDate ⟨1000, 0⟩, Value.vStr "X"]]⟩ := by
  rfl

/-- C3 (corrected), amended claim: in the *service* variant
(`remove_dups_fs`), for a same-age-or-newer batch record with identical
location fields, exactly one update is queued and the update counter
incremented if and only if some matched field's translated value
differs from the service's string rendering (`updateNeeded`); with no
difference the batch row is dropped with no store mutation queued.  In
the *feature-class* variant (`remove_dups_fc`), the store row is
instead rewritten in place and the update counter incremented
unconditionally whenever timestamps and locations agree, even when no
field differs. -/
theorem C3_update_only_on_diff_amended :
    (∀ (ctx : FsCtx) (srow : List Value) (idVal : Value) (ss : SideSt) (crow : List Value)
        (dd : Timestamp × Timestamp) (finfo : List Value),
        fsResolveDates ctx srow crow = .ok dd →
        tsLt dd.1 dd.2 = false →
        (compare_locations_fs ctx.fields srow crow ctx.loc_fields).1 = false →
        fsFieldInfo ctx (compare_locations_fs ctx.fields srow crow ctx.loc_fields).2
          = .ok finfo →
        fsRowBody ctx srow idVal ss crow =
          .ok ((if fsUpdateNeeded ctx srow finfo then
              { ss with updates := ss.updates ++ [finfo], upd := ss.upd + 1 }
            else { ss with silent := ss.silent + 1 }), false))
    ∧ (∀ (ctx : FcCtx) (att : AttDict) (upd : Nat) (fcrow : List Value) (idK : Value)
        (id_vals : List Value),
        fcRowKey ctx fcrow = .ok idK →
        dictLookup att idK = some id_vals →
        compare_dates_fc ctx.parse ctx.fields ctx.dt_field fcrow id_vals = .ok false →
        (compare_locations_fc ctx.fields fcrow id_vals ctx.loc_fields).1 = false →
        fcProcessStoreRow ctx att upd fcrow =
          .ok (dictRemove att idK, upd + 1,
            some (fcNewRow ctx
              (compare_locations_fc ctx.fields fcrow id_vals ctx.loc_fields).2.1))) := by
  constructor
  · intro ctx srow idVal ss crow dd finfo hd hlt hloc hfi
    unfold fsRowBody
    rw [hd]
    simp only [hlt, Bool.false_eq_true, if_false, hloc, hfi]
    by_cases hu : fsUpdateNeeded ctx srow finfo
    · simp only [hu, if_true]
    · simp only [hu, Bool.false_eq_true, if_false]
  · intro ctx att upd fcrow idK id_vals hk hl hcd hloc
    unfold fcProcessStoreRow
    rw [hk]
    dsimp only
    rw [hl]
    dsimp only
    rw [hcd]
    simp only [Bool.false_eq_true, if_false, hloc]

/-- C3 witness: a same-second batch record with identical address but a
changed note field queues exactly one update and bumps the update
counter; the service rows are untouched and the batch row is dropped. -/
theorem C3_update_only_on_diff_witness :
    fsRowBody
        ⟨["ID", "DATE", "ADDR", "NOTE"], "ID", "DATE", ["ADDR"], fun _ => none,
          fun f => if f = "DATE" then "Date" else "String", "String"⟩
        [Value.vStr "A", Value.vInt 100, Value.vStr "1 Main St", Value.vStr "old"]
        (Value.vStr "A") ⟨[], [], 0, 0, 0⟩
        [Value.vStr "A", Value.vDate ⟨100, 0⟩, Value.vStr "1 Main St", Value.vStr "new"]
      = .ok (⟨[], [[Value.vStr "A", Value.vInt 100000, Value.vStr "1 Main St",
          Value.vStr "new"]], 1, 0, 0⟩, false) :=
  C3_update_only_on_diff_amended.1
    ⟨["ID", "DATE", "ADDR", "NOTE"], "ID", "DATE", ["ADDR"], fun _ => none,
      fun f => if f = "DATE" then "Date" else "String", "String"⟩
    [Value.vStr "A", Value.vInt 100, Value.vStr "1 Main St", Value.vStr "old"]
    (Value.vStr "A") ⟨[], [], 0, 0, 0⟩
    [Value.vStr "A", Value.vDate ⟨100, 0⟩, Value.vStr "1 Main St", Value.vStr "new"]
    (⟨100, 0⟩, ⟨100, 0⟩)
    [Value.vStr "A", Value.vInt 100000, Value.vStr "1 Main St", Value.vStr "new"]
    rfl rfl rfl rfl

/-- C4 (code slip in the scripts variant): two timestamps in the same
second with different microsecond components.  The `compare_dates` of
`scripts/import_publish_incidents.py` discards the results of its
`replace(microsecond=0)` calls, so it reports the row strictly more
recent (`True`), while `compare_dates_fc` of `import_records.py`, which
assigns the truncated values, reports `False` as the spec requires. -/
theorem C4_subsecond_truncation_slip :
    compare_dates_scripts (fun _ => none) ["DATE"] "DATE"
        [.vDate ⟨100, 500000⟩] [.vDate ⟨100, 100000⟩] = .ok true
    ∧ compare_dates_fc (fun _ => none) ["DATE"] "DATE"
        [.vDate ⟨100, 500000⟩] [.vDate ⟨100, 100000⟩] = .ok false :=
  ⟨rfl, rfl⟩

theorem editLoop_step_aux (resp : Nat → EditResp) (chunk q fp reqs : Nat) (rv' : Bool)
    (ih : reqs + 1 ≤ (editLoop resp chunk q (fp + chunk) (reqs + 1) rv').requests ∧
      (editLoop resp chunk q (fp + chunk) (reqs + 1) rv').processed
        = (fp + chunk)
          + ((editLoop resp chunk q (fp + chunk) (reqs + 1) rv').requests - (reqs + 1)) * chunk) :
    reqs ≤ (editLoop resp chunk q (fp + chunk) (reqs + 1) rv').requests ∧
      (editLoop resp chunk q (fp + chunk) (reqs + 1) rv').processed
        = fp + ((editLoop resp chunk q (fp + chunk) (reqs + 1) rv').requests - reqs) * chunk := by
  obtain ⟨h1, h2⟩ := ih
  refine ⟨by omega, ?_⟩
  rw [h2]
  have ha : (editLoop resp chunk q (fp + chunk) (reqs + 1) rv').requests - reqs
      = ((editLoop resp chunk q (fp + chunk) (reqs + 1) rv').requests - (reqs + 1)) + 1 := by
    omega
  rw [ha, Nat.succ_mul]
  omega

theorem editLoop_requests_processed (resp : Nat → EditResp) (chunk : Nat) :
    ∀ (q fp reqs : Nat) (rv : Bool),
      reqs ≤ (editLoop resp chunk q fp reqs rv).requests ∧
      (editLoop resp chunk q fp reqs rv).processed
        = fp + ((editLoop resp chunk q fp reqs rv).requests - reqs) * chunk := by
  intro q
  induction q with
  | zero =>
    intro fp reqs rv
    exact ⟨Nat.le_refl _, by simp [editLoop]⟩
  | succ q ih =>
    intro fp reqs rv
    simp only [editLoop]
    cases resp reqs with
    | none => exact ⟨Nat.le_succ _, by simp⟩
    | some items =>
      dsimp only
      cases items.getLast? with
      | none =>
        exact editLoop_step_aux resp chunk q fp reqs true (ih (fp + chunk) (reqs + 1) true)
      | some item =>
        cases item with
        | success =>
          exact editLoop_step_aux resp chunk q fp reqs true (ih (fp + chunk) (reqs + 1) true)
        | errorNone =>
          exact editLoop_step_aux resp chunk q fp reqs rv (ih (fp + chunk) (reqs + 1) rv)
        | errorDesc d => exact ⟨Nat.le_succ _, by simp⟩

theorem editLoop_allGood (resp : Nat → EditResp) (chunk : Nat)
    (hgood : ∀ k, chunkGood (resp k) = true) :
    ∀ (q fp reqs : Nat) (rv : Bool),
      (editLoop resp chunk q fp reqs rv).requests = reqs + q := by
  intro q
  induction q with
  | zero => intro fp reqs rv; simp [editLoop]
  | succ q ih =>
    intro fp reqs rv
    have hg := hgood reqs
    simp only [editLoop]
    cases hr : resp reqs with
    | none => rw [hr] at hg; simp [chunkGood] at hg
    | some items =>
      rw [hr] at hg
      dsimp only
      cases hl : items.getLast? with
      | none => dsimp only; rw [ih]; omega
      | some item =>
        cases item with
        | success => dsimp only; rw [ih]; omega
        | errorNone => dsimp only; rw [ih]; omega
        | errorDesc d => simp [chunkGood, hl] at hg

theorem editLoop_firstFail (resp : Nat → EditResp) (chunk : Nat) :
    ∀ (q fp reqs : Nat) (rv : Bool) (k : Nat),
      reqs ≤ k → k < reqs + q →
      (∀ j, reqs ≤ j → j < k → chunkGood (resp j) = true) →
      chunkGood (resp k) = false →
      (editLoop resp chunk q fp reqs rv).requests = k + 1 ∧
        (editLoop resp chunk q fp reqs rv).retval = false := by
  intro q
  induction q with
  | zero => intro fp reqs rv k h1 h2 _ _; omega
  | succ q ih =>
    intro fp reqs rv k h1 h2 hpre hk
    simp only [editLoop]
    by_cases he : reqs = k
    · subst he
      cases hr : resp reqs with
      | none => exact ⟨rfl, rfl⟩
      | some items =>
        rw [hr] at hk
        dsimp only
        cases hl : items.getLast? with
        | none => simp [chunkGood, hl] at hk
        | some item =>
          cases item with
          | success => simp [chunkGood, hl] at hk
          | errorNone => simp [chunkGood, hl] at hk
          | errorDesc d => exact ⟨rfl, rfl⟩
    · have hlt : reqs < k := by omega
      have hg := hpre reqs (Nat.le_refl _) hlt
      cases hr : resp reqs with
      | none => rw [hr] at hg; simp [chunkGood] at hg
      | some items =>
        rw [hr] at hg
        dsimp only
        cases hl : items.getLast? with
        | none =>
          exact ih (fp + chunk) (reqs + 1) true k (by omega) (by omega)
            (fun j hj1 hj2 => hpre j (by omega) hj2) hk
        | some item =>
          cases item with
          | success =>
            exact ih (fp + chunk) (reqs + 1) true k (by omega) (by omega)
              (fun j hj1 hj2 => hpre j (by omega) hj2) hk
          | errorNone =>
            exact ih (fp + chunk) (reqs + 1) rv k (by omega) (by omega)
              (fun j hj1 hj2 => hpre j (by omega) hj2) hk
          | errorDesc d => simp [chunkGood, hl] at hg

/-- C6 (confirmed), batched writer chunking, for both writer modes.
With `N ≥ 1` records and chunk size `C = min N 100`: the processed
count always equals requests issued times the chunk size; when every
chunk's response passes the writer's check the writer issues exactly
`⌈N/100⌉` requests; and when the k-th (0-based) chunk is the first to
fail the check while that chunk was actually due (`k*C < N`), the
writer issues exactly `k+1` requests — stopping immediately — and
returns failure, leaving the processed count covering every chunk for
which a request was issued. -/
theorem C6_chunking (mode : EditMode) (N : Nat) (resp : EditMode → Nat → EditResp)
    (hN : 1 ≤ N) :
    (editFeatures mode N resp).processed
        = (editFeatures mode N resp).requests * (if N > 100 then 100 else N)
    ∧ ((∀ k, chunkGood (resp mode k) = true) →
        (editFeatures mode N resp).requests = (N + 99) / 100)
    ∧ (∀ k, (∀ j, j < k → chunkGood (resp mode j) = true) →
        chunkGood (resp mode k) = false →
        k * (if N > 100 then 100 else N) < N →
        (editFeatures mode N resp).requests = k + 1
          ∧ (editFeatures mode N resp).retval = false) := by
  have hN0 : ¬(N = 0) := by omega
  have hC : 0 < (if N > 100 then 100 else N) := by
    by_cases h : N > 100 <;> simp [h] <;> omega
  refine ⟨?_, ?_, ?_⟩
  · unfold editFeatures
    simp only [hN0, if_false]
    have h := (editLoop_requests_processed (resp mode) (if N > 100 then 100 else N)
      ((N + (if N > 100 then 100 else N) - 1) / (if N > 100 then 100 else N)) 0 0 false).2
    simpa using h
  · intro hgood
    unfold editFeatures
    simp only [hN0, if_false]
    rw [editLoop_allGood (resp mode) _ hgood]
    by_cases h : N > 100
    · simp [h]
    · simp only [h, if_false]
      have hle : N ≤ 100 := by omega
      have l1 : (N + N - 1) / N = 1 := Nat.div_eq_of_lt_le (by omega) (by omega)
      have l2 : (N + 99) / 100 = 1 := Nat.div_eq_of_lt_le (by omega) (by omega)
      omega
  · intro k hpre hk hkC
    unfold editFeatures
    simp only [hN0, if_false]
    have hq : (N + (if N > 100 then 100 else N) - 1) / (if N > 100 then 100 else N)
        = (N - 1) / (if N > 100 then 100 else N) + 1 := by
      have hrw : N + (if N > 100 then 100 else N) - 1 = (N - 1) + (if N > 100 then 100 else N) := by
        omega
      rw [hrw, Nat.add_div_right _ hC]
    have hkq : k ≤ (N - 1) / (if N > 100 then 100 else N) :=
      (Nat.le_div_iff_mul_le hC).mpr (by omega)
    exact editLoop_firstFail (resp mode) _ _ 0 0 false k (Nat.zero_le _) (by omega)
      (fun j _ hj => hpre j hj) hk

/-- C6 witness: 250 records with all-success responses make three
requests of chunk size 100, processing counter 300; and a first-chunk
failure on a 250-record write stops after one request. -/
theorem C6_chunking_witness :
    (editFeatures .add 250 (fun _ _ => some [.success])).requests = 3
    ∧ (editFeatures .update 250 (fun _ _ => none)).requests = 1
    ∧ (editFeatures .update 250 (fun _ _ => none)).retval = false :=
  ⟨(C6_chunking .add 250 (fun _ _ => some [.success]) (by decide)).2.1 (fun _ => rfl),
   ((C6_chunking .update 250 (fun _ _ => none) (by decide)).2.2 0
      (fun j hj => absurd hj (by omega)) rfl (by decide)).1,
   ((C6_chunking .update 250 (fun _ _ => none) (by decide)).2.2 0
      (fun j hj => absurd hj (by omega)) rfl (by decide)).2⟩

/-- C7 (corrected), counterexample: a two-record chunk whose response
lists a per-item error at position 0 but a plain success entry last is
reported as overall success (`retval = true`) — the writer inspects
only `addResults[-1]`, so the position-0 error is silently dropped. -/
theorem C7_per_record_error_counterexample :
    editFeatures .add 2 (fun _ _ => some [.errorDesc "boom", .success])
      = ⟨true, 1, 2⟩ := rfl

theorem getLast_append_single {α : Type} (l : List α) (a : α) :
    (l ++ [a]).getLast? = some a := by
  rw [List.getLast?_append_cons]
  rfl

/-- C7 (corrected), amended claim: the writer's per-chunk check looks
only at the *last* entry of the chunk's `addResults`.  A chunk whose
last entry carries a real error surfaces a failure immediately (one
request issued, `retval = false`); and the check's verdict on a chunk
depends only on its last entry, so per-item errors at earlier positions
are not surfaced when the last entry is error-free. -/
theorem C7_per_record_error_amended :
    (∀ (mode : EditMode) (N : Nat) (resp : EditMode → Nat → EditResp)
        (items : List EditItem) (d : String),
        1 ≤ N → resp mode 0 = some items → items.getLast? = some (.errorDesc d) →
        editFeatures mode N resp = ⟨false, 1, if N > 100 then 100 else N⟩)
    ∧ (∀ (items : List EditItem) (lastItem : EditItem),
        chunkGood (some (items ++ [lastItem])) = chunkGood (some [lastItem])) := by
  constructor
  · intro mode N resp items d hN hresp hlast
    have hN0 : ¬(N = 0) := by omega
    have hC : 0 < (if N > 100 then 100 else N) := by
      by_cases h : N > 100 <;> simp [h] <;> omega
    unfold editFeatures
    simp only [hN0, if_false]
    have hq : 1 ≤ (N + (if N > 100 then 100 else N) - 1) / (if N > 100 then 100 else N) :=
      (Nat.one_le_div_iff hC).mpr (by omega)
    obtain ⟨q', hq'⟩ : ∃ q',
        (N + (if N > 100 then 100 else N) - 1) / (if N > 100 then 100 else N) = q' + 1 :=
      ⟨(N + (if N > 100 then 100 else N) - 1) / (if N > 100 then 100 else N) - 1, by omega⟩
    rw [hq']
    simp only [editLoop, hresp, hlast]
    simp
  · intro items lastItem
    unfold chunkGood
    dsimp only
    rw [getLast_append_single]
    cases lastItem <;> rfl

/-- C7 witness: a single-chunk write whose last (and only) result entry
carries an error returns failure after one request. -/
theorem C7_per_record_error_witness :
    editFeatures .update 5 (fun _ _ => some [.errorDesc "kaput"]) = ⟨false, 1, 5⟩ :=
  C7_per_record_error_amended.1 .update 5 (fun _ _ => some [.errorDesc "kaput"])
    [.errorDesc "kaput"] "kaput" (by decide) rfl rfl

/-- C8 (corrected), counterexample: `cast_id` applied to the string
`"1042.0"` with a Double target type does not strip the fractional
part — `int("1042.0")` raises `ValueError`, so the cast falls back to
the string itself instead of producing the integer 1042. -/
theorem C8_identifier_casting_counterexample :
    cast_id (.vStr "1042.0") "Double" = .ok (.vStr "1042.0")
    ∧ cast_id (.vStr "1042.0") "Double" ≠ .ok (.vInt 1042) := by
  constructor
  · rfl
  · intro h
    rw [show cast_id (.vStr "1042.0") "Double" = .ok (.vStr "1042.0") from rfl] at h
    simp at h

/-- C8 (corrected), amended claim: `cast_id` stringifies for
string-like target kinds and otherwise attempts integer coercion,
falling back to the stringified value on `ValueError` (a null id with a
numeric kind instead raises an uncaught `TypeError`).  No `.0`-style
stripping happens inside the cast: the string `"1042.0"` falls back to
the string `"1042.0"`.  Separately, when the *source table's* id field
type is Double or Single, `_prep_source_table` truncates the collected
id string at its first dot, so the rendered float `1042.0` contributes
the id string `"1042"` (a string, not the integer 1042). -/
theorem C8_identifier_casting_amended :
    (∀ (v : Value) (ft : String), strContains ft "String" = true →
        cast_id v ft = .ok (.vStr (pyStr v)))
    ∧ (∀ (v : Value) (ft : String) (n : Int), strContains ft "String" = false →
        pyIntOf v = .ok n → cast_id v ft = .ok (.vInt n))
    ∧ (∀ (v : Value) (ft : String), strContains ft "String" = false →
        pyIntOf v = .error .valueError → cast_id v ft = .ok (.vStr (pyStr v)))
    ∧ splitIdDecimal (pyStr (.vFloat 10420 1)) = "1042"
    ∧ cast_id (.vStr "1042.0") "Double" = .ok (.vStr "1042.0") := by
  refine ⟨?_, ?_, ?_, rfl, rfl⟩
  · intro v ft h
    unfold cast_id
    simp only [h, if_true]
  · intro v ft n h hint
    unfold cast_id
    simp only [h, Bool.false_eq_true, if_false, hint]
  · intro v ft h hint
    unfold cast_id
    simp only [h, Bool.false_eq_true, if_false, hint]

/-- C8 witness: a numeric string id under an Integer target kind casts
to the integer; the string `"A"` under the same kind falls back to the
string. -/
theorem C8_identifier_casting_witness :
    cast_id (.vStr "42") "Integer" = .ok (.vInt 42)
    ∧ cast_id (.vStr "A") "Integer" = .ok (.vStr "A") :=
  ⟨C8_identifier_casting_amended.2.1 (.vStr "42") "Integer" 42 rfl rfl,
   C8_identifier_casting_amended.2.2.1 (.vStr "A") "Integer" rfl rfl⟩

/-- C9 (corrected), counterexample: the code renders the string value
`O'Brien` into a predicate as `FID = 'O'Brien'` — the embedded quote is
not escaped, unlike the spec's `quoteForPredicate`, which doubles it. -/
theorem C9_predicate_quoting_counterexample :
    whereEqClause "FID" false "O\x27Brien" = "FID = \x27O\x27Brien\x27"
    ∧ whereEqClause "FID" false "O\x27Brien" ≠ quoteForPredicateSpec "FID" false "O\x27Brien" := by
  constructor
  · rfl
  · intro h
    rw [show whereEqClause "FID" false "O\x27Brien" = "FID = \x27O\x27Brien\x27" from rfl,
      show quoteForPredicateSpec "FID" false "O\x27Brien"
        = "FID = \x27O\x27\x27Brien\x27" from rfl] at h
    simp at h

theorem foldr_escape_id (l : List Char)
    (h : ∀ c ∈ l, (c == '\x27') = false) :
    l.foldr (fun c acc => if c == '\x27' then c :: c :: acc else c :: acc) [] = l := by
  induction l with
  | nil => rfl
  | cons c cs ih =>
    simp only [List.foldr_cons]
    rw [h c (List.mem_cons_self c cs)]
    simp only [Bool.false_eq_true, if_false]
    rw [ih (fun c' hc' => h c' (List.mem_cons_of_mem c hc'))]

/-- C9 (corrected), amended claim: numeric field kinds render unquoted
(as claimed); string kinds render single-quoted with the value inserted
verbatim, *without* escaping embedded quotes — so the rendering agrees
with the spec's escaping `quoteForPredicate` exactly on values
containing no single-quote character, and the resulting predicate is
well-formed only for such values. -/
theorem C9_predicate_quoting_amended :
    (∀ (f lit : String), whereEqClause f true lit = f ++ " = " ++ lit)
    ∧ (∀ (f lit : String), whereEqClause f false lit = f ++ " = \x27" ++ lit ++ "\x27")
    ∧ (∀ (f lit : String), (∀ c ∈ lit.toList, (c == '\x27') = false) →
        whereEqClause f false lit = quoteForPredicateSpec f false lit) := by
  refine ⟨fun f lit => rfl, fun f lit => rfl, ?_⟩
  intro f lit h
  unfold whereEqClause quoteForPredicateSpec escapeQuotes
  rw [foldr_escape_id lit.toList h]
  rfl

/-- C9 witness: on a value without quote characters the code's
rendering and the spec's escaped rendering coincide. -/
theorem C9_predicate_quoting_witness :
    whereEqClause "FID" false "1 Main St" = quoteForPredicateSpec "FID" false "1 Main St" :=
  C9_predicate_quoting_amended.2.2 "FID" "1 Main St" (by decide)

theorem compare_locations_fs_all_missing (fields : List String) (srow trow : List Value) :
    ∀ (lf : List String), (∀ f ∈ lf, fields.contains f = false) →
      compare_locations_fs fields srow trow lf = (false, trow) := by
  intro lf
  induction lf with
  | nil => intro _; rfl
  | cons f rest ih =>
    intro h
    have hf := h f (List.mem_cons_self f rest)
    unfold compare_locations_fs
    simp only [hf, Bool.false_eq_true, if_false]
    exact ih (fun g hg => h g (List.mem_cons_of_mem f hg))

theorem compare_locations_fc_all_missing (fields : List String) (fcrow ivals : List Value) :
    ∀ (lf : List String), (∀ f ∈ lf, fields.contains f = false) →
      compare_locations_fc fields fcrow ivals lf = (false, ivals, fcrow) := by
  intro lf
  induction lf with
  | nil => intro _; rfl
  | cons f rest ih =>
    intro h
    have hf := h f (List.mem_cons_self f rest)
    unfold compare_locations_fc
    simp only [hf, Bool.false_eq_true, if_false]
    exact ih (fun g hg => h g (List.mem_cons_of_mem f hg))

/-- C10 (confirmed, implicit behavior): both location comparisons skip
any configured location field absent from the matched-fields list.
When *no* configured location field is among the matched fields, both
report "locations identical" — `(false, unchanged rows)` — regardless
of the record contents, and consequently the service-variant per-id
resolution never deletes a store record in that configuration (its
store list passes through unchanged whatever branch is taken). -/
theorem C10_missing_location_fields_skip :
    (∀ (fields : List String) (srow trow : List Value) (lf : List String),
        (∀ f ∈ lf, fields.contains f = false) →
        compare_locations_fs fields srow trow lf = (false, trow))
    ∧ (∀ (fields : List String) (fcrow ivals : List Value) (lf : List String),
        (∀ f ∈ lf, fields.contains f = false) →
        compare_locations_fc fields fcrow ivals lf = (false, ivals, fcrow))
    ∧ (∀ (ctx : FsCtx) (srow : List Value) (idVal : Value) (ss : SideSt) (crow : List Value)
        (out : SideSt × Bool),
        (∀ f ∈ ctx.loc_fields, ctx.fields.contains f = false) →
        fsRowBody ctx srow idVal ss crow = .ok out →
        out.1.store = ss.store) := by
  refine ⟨compare_locations_fs_all_missing, compare_locations_fc_all_missing, ?_⟩
  intro ctx srow idVal ss crow out hdisj h
  unfold fsRowBody at h
  cases hd : fsResolveDates ctx srow crow with
  | error e => rw [hd] at h; exact absurd h (by simp)
  | ok dd =>
    rw [hd] at h
    dsimp only at h
    by_cases h1 : tsLt dd.1 dd.2
    · simp only [h1, if_true, Except.ok.injEq] at h
      rw [← h]
    · simp only [h1, Bool.false_eq_true, if_false] at h
      rw [compare_locations_fs_all_missing ctx.fields srow crow ctx.loc_fields hdisj] at h
      simp only [Bool.false_eq_true, if_false] at h
      cases hf : fsFieldInfo ctx crow with
      | error e => rw [hf] at h; exact absurd h (by simp)
      | ok finfo =>
        rw [hf] at h
        dsimp only at h
        by_cases h2 : fsUpdateNeeded ctx srow finfo
        · simp only [h2, if_true, Except.ok.injEq] at h
          rw [← h]
        · simp only [h2, Bool.false_eq_true, if_false, Except.ok.injEq] at h
          rw [← h]

/-- C10 witness: with the single configured location field absent from
the matched fields, the service-variant comparison reports identical
locations on records whose actual location values differ. -/
theorem C10_missing_location_fields_skip_witness :
    compare_locations_fs ["ID", "DATE"] [Value.vStr "A", Value.vInt 1, Value.vStr "1 Main St"]
        [Value.vStr "A", Value.vInt 1, Value.vStr "9 Elm St"] ["ADDR"]
      = (false, [Value.vStr "A", Value.vInt 1, Value.vStr "9 Elm St"]) :=
  C10_missing_location_fields_skip.1 ["ID", "DATE"]
    [Value.vStr "A", Value.vInt 1, Value.vStr "1 Main St"]
    [Value.vStr "A", Value.vInt 1, Value.vStr "9 Elm St"] ["ADDR"] (by decide)

end IncidentImport
